import Mathlib

/-!
# Verification of the origami notebook builder and RTU client

Shallow embedding of the core of the `origami` collaborative-notebook client:

* `origami/notebook/model.py` — the pydantic document model (`Notebook`,
  `CodeCell`/`MarkdownCell`/`RawCell`, the four output variants), including the
  `multiline_source` normalization and pydantic's ignore-extra-fields parsing
  and `exclude_unset` serialization (`__fields_set__` is modeled by explicit
  `…Set : Bool` flags).
* `origami/notebook/builder.py` — `NotebookBuilder.apply_delta` and all its
  handlers.  Python mutates the builder in place and raised exceptions leave
  the mutations performed so far; this is modeled by
  `Except NotebookBuilder NotebookBuilder` where the `error` payload is the
  builder state at the moment the exception is raised.
* `origami/clients/rtu.py` — delta sequencing (`queue_or_apply_delta`,
  `replay_unapplied_deltas`), `send_file_subscribe`, and
  `on_bulk_cell_state_update`.

Modeling conventions:
* UUIDs are `Nat` (the all-zero sentinel `uuid.UUID(int=0)` is `0`).
* JSON numbers are `Int` (floats do not occur in the verified flows) and
  parsing is strict: pydantic's lenient coercions (e.g. `"4"` → `4`) are not
  modeled.
* Python dicts are insertion-ordered association lists; assignment replaces an
  existing key in place and appends a fresh key at the end.
* The external `diff_match_patch` library is abstracted as an explicit
  function argument `dmp : String → String → String` (patch text → old source
  → merged source); no claim depends on its semantics.
-/

namespace Origami

/-- JSON values, with objects as insertion-ordered association lists
(mirroring python dicts produced by `orjson.loads`). -/
inductive Json where
  | null
  | bool (b : Bool)
  | num (n : Int)
  | str (s : String)
  | arr (elems : List Json)
  | obj (kvs : List (String × Json))
deriving Repr, Inhabited

/-- First binding for `k` (python dict lookup; well-formed dicts have unique
keys so first = only). -/
def lookupKV {α : Type} : List (String × α) → String → Option α
  | [], _ => none
  | (k', v') :: rest, k => if k' = k then some v' else lookupKV rest k

/-- Python dict assignment `d[k] = v`: replace in place if the key exists,
otherwise append at the end (insertion order). -/
def insertKV {α : Type} : List (String × α) → String → α → List (String × α)
  | [], k, v => [(k, v)]
  | (k', v') :: rest, k, v =>
    if k' = k then (k, v) :: rest else (k', v') :: insertKV rest k v

/-- Python truthiness of an `Optional[str]`: `None` and `""` are falsy. -/
def truthyS : Option String → Bool
  | none => false
  | some s => !s.isEmpty

/-- `Json.arr` projection. -/
def asArr : Json → Option (List Json)
  | .arr xs => some xs
  | _ => none

/-- `Json.obj` projection (pydantic `Dict[str, Any]` / `dict` field). -/
def asObj : Json → Option (List (String × Json))
  | .obj kvs => some kvs
  | _ => none

/-- `Json.str` projection (pydantic `str` field, strict). -/
def asStr : Json → Option String
  | .str s => some s
  | _ => none

/-- `Json.num` projection (pydantic `int` field, strict). -/
def asInt : Json → Option Int
  | .num n => some n
  | _ => none

/-- A JSON array of strings (pydantic `List[str]`). -/
def asStrList : Json → Option (List String)
  | .arr xs => xs.mapM asStr
  | _ => none

/-- `CellBase.multiline_source` validator: a list of lines is joined with
newline, a plain string is kept; anything else is rejected. -/
def parseSource : Json → Option String
  | .str s => some s
  | .arr xs => (xs.mapM asStr).map (String.intercalate "\n")
  | _ => none

/-- `Optional[int]` field together with its `__fields_set__` flag:
absent → (unset, `None`); `null` → (set, `None`); number → (set, n). -/
def parseOptInt : Option Json → Option (Bool × Option Int)
  | none => some (false, none)
  | some .null => some (true, none)
  | some (.num n) => some (true, some n)
  | some _ => none

/-- Cell output variants (`StreamOutput`, `DisplayDataOutput`,
`ExecuteResultOutput`, `ErrorOutput` in `notebook/model.py`).  Only
`ExecuteResultOutput.execution_count` has a default, hence the only
`…Set` flag. -/
inductive Output where
  | stream (name text : String)
  | displayData (data mdata : List (String × Json))
  | executeResult (execCountSet : Bool) (execution_count : Option Int)
      (data mdata : List (String × Json))
  | errorOutput (ename evalue : String) (traceback : List String)
deriving Repr, Inhabited

/-- `parse_obj_as(CellOutput, …)`: discriminated on `output_type`; extra keys
are ignored (pydantic default config). -/
def parseOutput (j : Json) : Option Output :=
  match asObj j with
  | none => none
  | some kvs =>
    match lookupKV kvs "output_type" with
    | some (.str "stream") =>
      match lookupKV kvs "name", lookupKV kvs "text" with
      | some (.str name), some (.str text) => some (.stream name text)
      | _, _ => none
    | some (.str "display_data") =>
      match lookupKV kvs "data", lookupKV kvs "metadata" with
      | some (.obj data), some (.obj mdata) => some (.displayData data mdata)
      | _, _ => none
    | some (.str "execute_result") =>
      match parseOptInt (lookupKV kvs "execution_count") with
      | none => none
      | some (ecSet, ec) =>
        match lookupKV kvs "data", lookupKV kvs "metadata" with
        | some (.obj data), some (.obj mdata) =>
          some (.executeResult ecSet ec data mdata)
        | _, _ => none
    | some (.str "error") =>
      match lookupKV kvs "ename", lookupKV kvs "evalue" with
      | some (.str ename), some (.str evalue) =>
        match lookupKV kvs "traceback" with
        | none => none
        | some tb =>
          match asStrList tb with
          | none => none
          | some traceback => some (.errorOutput ename evalue traceback)
      | _, _ => none
    | _ => none

/-- One notebook cell.  `cell_type` is the variant tag ("code", "markdown",
"raw"); python attribute assignment is unchecked (the `validate_on_assignment`
config key is not a real pydantic option), so `cell_type` can transiently hold
any string and `source` can become `None` — hence `source : Option String`.
The `…Set` booleans model pydantic's `__fields_set__` (used by
`dict(exclude_unset=True)`); `execution_count`/`outputs` only exist on the
code variant. -/
structure Cell where
  id : String
  cell_type : String
  sourceSet : Bool
  source : Option String
  metadataSet : Bool
  metadata : List (String × Json)
  execCountSet : Bool
  execution_count : Option Int
  outputsSet : Bool
  outputs : List Output
deriving Repr, Inhabited

/-- The defaulted `source` field with its `__fields_set__` flag (default
`""`, unset when absent, normalized by `multiline_source` when present). -/
def parseSourceField : Option Json → Option (Bool × String)
  | none => some (false, "")
  | some v => (parseSource v).map (fun s => (true, s))

/-- The defaulted `metadata` field with its `__fields_set__` flag. -/
def parseMetadataField : Option Json → Option (Bool × List (String × Json))
  | none => some (false, [])
  | some v => (asObj v).map (fun m => (true, m))

/-- The defaulted `outputs` field of a code cell with its flag. -/
def parseOutputsField : Option Json → Option (Bool × List Output)
  | none => some (false, [])
  | some (.arr xs) => (xs.mapM parseOutput).map (fun os => (true, os))
  | some _ => none

/-- `parse_obj_as(NotebookCell, …)`: discriminated on `cell_type`; required
`id`; `source`/`metadata` defaulted; extra keys ignored.  Markdown and raw
cells have no `execution_count`/`outputs` fields, so those inputs are ignored
for them. -/
def parseCell (j : Json) : Option Cell :=
  match asObj j with
  | none => none
  | some kvs =>
    match lookupKV kvs "cell_type", lookupKV kvs "id" with
    | some (.str tag), some (.str id) =>
      match parseSourceField (lookupKV kvs "source") with
      | none => none
      | some (sourceSet, source) =>
        match parseMetadataField (lookupKV kvs "metadata") with
        | none => none
        | some (metadataSet, metadata) =>
          match tag with
          | "code" =>
            match parseOptInt (lookupKV kvs "execution_count") with
            | none => none
            | some (ecSet, ec) =>
              match parseOutputsField (lookupKV kvs "outputs") with
              | none => none
              | some (outSet, outs) =>
                some { id := id, cell_type := "code", sourceSet := sourceSet,
                       source := some source, metadataSet := metadataSet,
                       metadata := metadata, execCountSet := ecSet,
                       execution_count := ec, outputsSet := outSet,
                       outputs := outs }
          | "markdown" =>
            some { id := id, cell_type := "markdown", sourceSet := sourceSet,
                   source := some source, metadataSet := metadataSet,
                   metadata := metadata, execCountSet := false,
                   execution_count := none, outputsSet := false, outputs := [] }
          | "raw" =>
            some { id := id, cell_type := "raw", sourceSet := sourceSet,
                   source := some source, metadataSet := metadataSet,
                   metadata := metadata, execCountSet := false,
                   execution_count := none, outputsSet := false, outputs := [] }
          | _ => none
    | _, _ => none

/-- The notebook document (`Notebook` in `notebook/model.py`); all four
fields are required, so they are always in `__fields_set__`. -/
structure Notebook where
  nbformat : Int
  nbformat_minor : Int
  metadata : List (String × Json)
  cells : List Cell
deriving Repr, Inhabited

/-- `Notebook.parse_obj`: the four required fields, cells through the
discriminated-union parser; extra keys ignored. -/
def parseNotebook (j : Json) : Option Notebook :=
  match asObj j with
  | none => none
  | some kvs =>
    match lookupKV kvs "nbformat", lookupKV kvs "nbformat_minor" with
    | some (.num nf), some (.num nfm) =>
      match lookupKV kvs "metadata", lookupKV kvs "cells" with
      | some (.obj md), some (.arr cellsJson) =>
        match cellsJson.mapM parseCell with
        | none => none
        | some cells =>
          some { nbformat := nf, nbformat_minor := nfm, metadata := md,
                 cells := cells }
      | _, _ => none
    | _, _ => none

/-- Python `None`-able string attribute rendered to JSON. -/
def dumpOptStr : Option String → Json
  | none => .null
  | some s => .str s

/-- Python `Optional[int]` attribute rendered to JSON. -/
def dumpOptInt : Option Int → Json
  | none => .null
  | some n => .num n

/-- `.dict(exclude_unset=True)` of an output, keys in field-declaration
order. -/
def dumpOutput : Output → Json
  | .stream name text =>
    .obj [("output_type", .str "stream"), ("name", .str name),
          ("text", .str text)]
  | .displayData data mdata =>
    .obj [("output_type", .str "display_data"), ("data", .obj data),
          ("metadata", .obj mdata)]
  | .executeResult ecSet ec data mdata =>
    .obj ([("output_type", .str "execute_result")]
      ++ (if ecSet then [("execution_count", dumpOptInt ec)] else [])
      ++ [("data", .obj data), ("metadata", .obj mdata)])
  | .errorOutput ename evalue traceback =>
    .obj [("output_type", .str "error"), ("ename", .str ename),
          ("evalue", .str evalue),
          ("traceback", .arr (traceback.map Json.str))]

/-- Plain `.dict()` of an output (no `exclude_unset`) — used by
`replace_cell_metadata`'s re-modeling, where every attribute is emitted. -/
def dumpOutputFull : Output → Json
  | .executeResult _ ec data mdata =>
    .obj [("output_type", .str "execute_result"),
          ("execution_count", dumpOptInt ec), ("data", .obj data),
          ("metadata", .obj mdata)]
  | o => dumpOutput o

/-- `.dict(exclude_unset=True)` of a cell: inherited fields (`id`, `source`,
`metadata`) first, then the variant's own fields; defaulted fields only when
set; `execution_count`/`outputs` only exist on the code variant. -/
def Cell.dump (c : Cell) : Json :=
  .obj ([("id", .str c.id)]
    ++ (if c.sourceSet then [("source", dumpOptStr c.source)] else [])
    ++ (if c.metadataSet then [("metadata", .obj c.metadata)] else [])
    ++ [("cell_type", .str c.cell_type)]
    ++ (if c.cell_type = "code" && c.execCountSet then
          [("execution_count", dumpOptInt c.execution_count)] else [])
    ++ (if c.cell_type = "code" && c.outputsSet then
          [("outputs", .arr (c.outputs.map dumpOutput))] else []))

/-- Plain `.dict()` of a cell whose python class is `cls` ("code" emits
`execution_count`/`outputs`).  During `replace_cell_metadata` the `cell_type`
attribute has already been overwritten while the object's class (which decides
the attribute set) is still the old variant, hence the separate `cls`
argument. -/
def Cell.toDictAs (c : Cell) (cls : String) : Json :=
  .obj ([("id", .str c.id), ("source", dumpOptStr c.source),
         ("metadata", .obj c.metadata), ("cell_type", .str c.cell_type)]
    ++ (if cls = "code" then
          [("execution_count", dumpOptInt c.execution_count),
           ("outputs", .arr (c.outputs.map dumpOutputFull))] else []))

/-- `NotebookBuilder.dumps(indent=…)` modulo indentation:
`orjson.dumps(self.nb.dict(exclude_unset=True))`. -/
def Notebook.dump (nb : Notebook) : Json :=
  .obj [("nbformat", .num nb.nbformat), ("nbformat_minor", .num nb.nbformat_minor),
        ("metadata", .obj nb.metadata),
        ("cells", .arr (nb.cells.map Cell.dump))]

/-! ## Deltas (`origami/types/deltas.py` property models, `origami/models/deltas`)

The builder re-parses `delta.properties` through the property models
(`NBCellProperties`, `V2CellContentsProperties`, `V2CellMetadataProperties`,
`NBMetadataProperties`, `V2CellOutputCollectionProperties`).  Here the
properties are embedded post-parse as one record of optional fields; required
fields missing (`NBCellProperties.id`, `NBMetadataProperties.path`,
`V2CellOutputCollectionProperties.output_collection_id`) are `none` and make
the corresponding handler raise at its `parse_obj` line, before any mutation.
The warning-only `prior_value` comparison has no state effect and is not
modeled. -/
structure DeltaProps where
  id : Option String := none
  after_id : Option String := none
  cell : Option (List (String × Json)) := none
  patch : Option String := none
  source : Option String := none
  path : Option (List String) := none
  value : Json := .null
  language : Option String := none
  type : Option String := none
  output_collection_id : Option Nat := none
deriving Repr, Inhabited

/-- `FileDelta`: ids are `Nat` standing for UUIDs (`0` = the all-zero
sentinel); `parent_delta_id` is `Optional`. -/
structure FileDelta where
  id : Nat
  parent_delta_id : Option Nat := none
  delta_type : String
  delta_action : String
  resource_id : String := "__NULL_RESOURCE__"
  properties : DeltaProps := {}
deriving Repr, Inhabited

/-! ## NotebookBuilder (`origami/notebook/builder.py`) -/

/-- Python `list.insert(n, a)` (clamps past-the-end indices to append). -/
def insertAt (l : List α) (n : Nat) (a : α) : List α :=
  l.take n ++ a :: l.drop n

/-- Python `list.pop(n)` restricted to the resulting list. -/
def removeAt : List α → Nat → List α
  | [], _ => []
  | _ :: rest, 0 => rest
  | x :: rest, n + 1 => x :: removeAt rest n

/-- The builder state: the document plus the delta-chain head and the
session's deleted-cell set (a python `set`, modeled as a duplicate-free
list). -/
structure NotebookBuilder where
  nb : Notebook
  last_applied_delta_id : Option Nat := none
  deleted_cell_ids : List String := []
deriving Repr, Inhabited

/-- `NotebookBuilder.get_cell`: first cell with the given id together with its
index; `none` models the `CellNotFound` exception. -/
def findCell : List Cell → String → Option (Nat × Cell)
  | [], _ => none
  | c :: rest, cid =>
    if c.id = cid then some (0, c)
    else (findCell rest cid).map (fun p => (p.1 + 1, p.2))

def NotebookBuilder.get_cell (b : NotebookBuilder) (cell_id : String) :
    Option (Nat × Cell) :=
  findCell b.nb.cells cell_id

/-- Result of a builder mutation.  Python handlers mutate `self` in place and
exceptions propagate with the mutations done so far kept, so the `error`
payload is the builder state at the moment of the raise. -/
abbrev BuildResult := Except NotebookBuilder NotebookBuilder

/-- `nb_cells / add`.  `props.id` is authoritative and is pushed down into the
embedded cell dict before re-parsing it; `after_id` (when truthy) selects the
insertion point, else index 0. -/
def NotebookBuilder.add_cell (b : NotebookBuilder) (d : FileDelta) : BuildResult :=
  match d.properties.id with
  | none => .error b
  | some pid =>
    match d.properties.cell with
    | none => .ok b
    | some cellKvs =>
      if cellKvs.isEmpty then .ok b
      else
        match parseCell (.obj (insertKV cellKvs "id" (.str pid))) with
        | none => .error b
        | some newCell =>
          if truthyS d.properties.after_id then
            match b.get_cell (d.properties.after_id.getD "") with
            | none => .error b
            | some (idx, _) =>
              .ok { b with nb.cells := insertAt b.nb.cells (idx + 1) newCell }
          else
            .ok { b with nb.cells := newCell :: b.nb.cells }

/-- `nb_cells / delete`: remove the first cell with the id and record the id
in `deleted_cell_ids`. -/
def NotebookBuilder.delete_cell (b : NotebookBuilder) (d : FileDelta) : BuildResult :=
  match d.properties.id with
  | none => .error b
  | some pid =>
    if pid = "" then .ok b
    else
      match b.get_cell pid with
      | none => .error b
      | some (idx, _) =>
        .ok { b with
              nb.cells := removeAt b.nb.cells idx,
              deleted_cell_ids :=
                if pid ∈ b.deleted_cell_ids then b.deleted_cell_ids
                else b.deleted_cell_ids ++ [pid] }

/-- `nb_cells / move`: `id == after_id` is a no-op; otherwise the cell is
popped first and only then is `after_id` resolved — a missing `after_id`
raises with the cell already removed. -/
def NotebookBuilder.move_cell (b : NotebookBuilder) (d : FileDelta) : BuildResult :=
  match d.properties.id with
  | none => .error b
  | some pid =>
    if d.properties.after_id = some pid then .ok b
    else
      match b.get_cell pid with
      | none => .error b
      | some (idx, cell) =>
        let cells' := removeAt b.nb.cells idx
        let b' := { b with nb.cells := cells' }
        if truthyS d.properties.after_id then
          match b'.get_cell (d.properties.after_id.getD "") with
          | none => .error b'
          | some (tidx, _) =>
            .ok { b with nb.cells := insertAt cells' (tidx + 1) cell }
        else
          .ok { b with nb.cells := cell :: cells' }

/-- `cell_contents / update`: diff-match-patch fuzzy apply onto the cell's
source (`dmp patchText oldSource`); `patch_fromText(None)` and
`patch_apply(…, None)` raise before any mutation. -/
def NotebookBuilder.update_cell_contents (dmp : String → String → String)
    (b : NotebookBuilder) (d : FileDelta) : BuildResult :=
  match d.properties.patch with
  | none => .error b
  | some patchText =>
    match b.get_cell d.resource_id with
    | none => .error b
    | some (idx, cell) =>
      match cell.source with
      | none => .error b
      | some src =>
        let cell' := { cell with source := some (dmp patchText src), sourceSet := true }
        .ok { b with nb.cells := b.nb.cells.set idx cell' }

/-- `cell_contents / replace`: overwrite the cell's source with
`props.source` (unchecked assignment, so a missing source writes `None`). -/
def NotebookBuilder.replace_cell_contents (b : NotebookBuilder) (d : FileDelta) :
    BuildResult :=
  match b.get_cell d.resource_id with
  | none => .error b
  | some (idx, cell) =>
    let cell' := { cell with source := d.properties.source, sourceSet := true }
    .ok { b with nb.cells := b.nb.cells.set idx cell' }

/-- The nested-path update walk shared by `update_notebook_metadata` and
`update_cell_metadata`: create missing intermediate dicts, assign the last
key.  An empty path raises (`path[-1]`), and descending into a pre-existing
non-dict raises; in both cases no mutation has happened yet (a freshly
created `{}` can never be followed by a raise). -/
def setPath : List (String × Json) → List String → Json →
    Except Unit (List (String × Json))
  | _, [], _ => .error ()
  | m, [k], v => .ok (insertKV m k v)
  | m, k :: k' :: rest, v =>
    match lookupKV m k with
    | none =>
      match setPath [] (k' :: rest) v with
      | .error e => .error e
      | .ok sub => .ok (insertKV m k (.obj sub))
    | some (.obj sub) =>
      match setPath sub (k' :: rest) v with
      | .error e => .error e
      | .ok sub' => .ok (insertKV m k (.obj sub'))
    | some _ => .error ()

/-- Read back a nested path (`m[k₀][k₁]…[kₙ]`) out of a metadata mapping. -/
def lookupPath : List (String × Json) → List String → Option Json
  | _, [] => none
  | m, [k] => lookupKV m k
  | m, k :: k' :: rest =>
    match lookupKV m k with
    | some (.obj sub) => lookupPath sub (k' :: rest)
    | _ => none

/-- `nb_metadata / update`: nested-path update of the notebook metadata. -/
def NotebookBuilder.update_notebook_metadata (b : NotebookBuilder) (d : FileDelta) :
    BuildResult :=
  match d.properties.path with
  | none => .error b
  | some path =>
    match setPath b.nb.metadata path d.properties.value with
    | .error _ => .error b
    | .ok m' => .ok { b with nb.metadata := m' }

/-- `cell_metadata / update`: silently dropped for deleted cells, dropped with
a warning for missing cells, else the nested-path update on the cell's
metadata (in-place dict mutation: `metadataSet` unchanged). -/
def NotebookBuilder.update_cell_metadata (b : NotebookBuilder) (d : FileDelta) :
    BuildResult :=
  if d.resource_id ∈ b.deleted_cell_ids then .ok b
  else
    match b.get_cell d.resource_id with
    | none => .ok b
    | some (idx, cell) =>
      match d.properties.path with
      | none => .error b
      | some path =>
        match setPath cell.metadata path d.properties.value with
        | .error _ => .error b
        | .ok m' =>
          .ok { b with nb.cells := b.nb.cells.set idx { cell with metadata := m' } }

/-- `cell_metadata / replace`: when `props.type` is truthy, overwrite the
`cell_type` attribute, re-model the cell through the discriminated union
(pop/insert at the same index), and — only then, still inside the
`if props.type` branch — write a truthy `props.language` into
`metadata.noteable.cell_type`.  A falsy `props.type` makes the whole handler
a no-op, language included. -/
def NotebookBuilder.replace_cell_metadata (b : NotebookBuilder) (d : FileDelta) :
    BuildResult :=
  match b.get_cell d.resource_id with
  | none => .error b
  | some (idx, cell) =>
    if truthyS d.properties.type then
      let t := d.properties.type.getD ""
      let cell1 := { cell with cell_type := t }
      let b1 := { b with nb.cells := b.nb.cells.set idx cell1 }
      match parseCell (Cell.toDictAs cell1 cell.cell_type) with
      | none => .error b1
      | some newCell =>
        let b2 := { b with nb.cells := b.nb.cells.set idx newCell }
        if truthyS d.properties.language then
          let l := d.properties.language.getD ""
          match lookupKV newCell.metadata "noteable" with
          | some (.obj sub) =>
            let md' := insertKV newCell.metadata "noteable" (.obj (insertKV sub "cell_type" (.str l)))
            let cell' := { newCell with metadata := md' }
            .ok { b with nb.cells := b.nb.cells.set idx cell' }
          | some _ => .error b2
          | none =>
            let md' := insertKV newCell.metadata "noteable" (.obj [("cell_type", .str l)])
            let cell' := { newCell with metadata := md' }
            .ok { b with nb.cells := b.nb.cells.set idx cell' }
        else .ok b2
    else .ok b

/-- `cell_output_collection / replace`: skip deleted/missing cells, else set
`metadata.noteable.output_collection_id` (in-place dict mutation). -/
def NotebookBuilder.replace_cell_output_collection (b : NotebookBuilder)
    (d : FileDelta) : BuildResult :=
  if d.resource_id ∈ b.deleted_cell_ids then .ok b
  else
    match d.properties.output_collection_id with
    | none => .error b
    | some ocid =>
      match b.get_cell d.resource_id with
      | none => .ok b
      | some (idx, cell) =>
        match lookupKV cell.metadata "noteable" with
        | some (.obj sub) =>
          let md' := insertKV cell.metadata "noteable" (.obj (insertKV sub "output_collection_id" (.num ocid)))
          let cell' := { cell with metadata := md' }
          .ok { b with nb.cells := b.nb.cells.set idx cell' }
        | some _ => .error b
        | none =>
          let md' := insertKV cell.metadata "noteable" (.obj [("output_collection_id", .num ocid)])
          let cell' := { cell with metadata := md' }
          .ok { b with nb.cells := b.nb.cells.set idx cell' }

/-- `cell_execute / *`: no document mutation. -/
def NotebookBuilder.log_execute_delta (b : NotebookBuilder) (_d : FileDelta) :
    BuildResult :=
  .ok b

/-- The `(delta_type, delta_action)` pairs with a handler in `apply_delta`. -/
def handledPair : String → String → Bool
  | "nb_cells", "add" | "nb_cells", "delete" | "nb_cells", "move" => true
  | "cell_contents", "update" | "cell_contents", "replace" => true
  | "cell_metadata", "update" | "cell_metadata", "replace" => true
  | "nb_metadata", "update" => true
  | "cell_output_collection", "replace" => true
  | "cell_execute", "execute" | "cell_execute", "execute_all" => true
  | "cell_execute", "execute_before" | "cell_execute", "execute_after" => true
  | _, _ => false

/-- The rows of the `handlers` dispatch table in
`NotebookBuilder.apply_delta`, as an enumerable discriminator. -/
inductive DeltaKind where
  | nbAdd | nbDelete | nbMove
  | contentsUpdate | contentsReplace
  | cellMetaUpdate | cellMetaReplace
  | nbMetaUpdate | outputCollectionReplace
  | execute | unhandled
deriving Repr, DecidableEq

/-- Which dispatch-table row a `(delta_type, delta_action)` pair selects. -/
def deltaKind : String → String → DeltaKind
  | "nb_cells", "add" => .nbAdd
  | "nb_cells", "delete" => .nbDelete
  | "nb_cells", "move" => .nbMove
  | "cell_contents", "update" => .contentsUpdate
  | "cell_contents", "replace" => .contentsReplace
  | "cell_metadata", "update" => .cellMetaUpdate
  | "cell_metadata", "replace" => .cellMetaReplace
  | "nb_metadata", "update" => .nbMetaUpdate
  | "cell_output_collection", "replace" => .outputCollectionReplace
  | "cell_execute", "execute" | "cell_execute", "execute_all"
  | "cell_execute", "execute_before" | "cell_execute", "execute_after" => .execute
  | _, _ => .unhandled

/-- The `handlers` dispatch of `NotebookBuilder.apply_delta`; an unhandled
`(delta_type, delta_action)` pair only warns. -/
def NotebookBuilder.dispatchDelta (dmp : String → String → String)
    (b : NotebookBuilder) (d : FileDelta) : BuildResult :=
  match deltaKind d.delta_type d.delta_action with
  | .nbAdd => b.add_cell d
  | .nbDelete => b.delete_cell d
  | .nbMove => b.move_cell d
  | .contentsUpdate => b.update_cell_contents dmp d
  | .contentsReplace => b.replace_cell_contents d
  | .cellMetaUpdate => b.update_cell_metadata d
  | .cellMetaReplace => b.replace_cell_metadata d
  | .nbMetaUpdate => b.update_notebook_metadata d
  | .outputCollectionReplace => b.replace_cell_output_collection d
  | .execute => b.log_execute_delta d
  | .unhandled => .ok b

/-- `NotebookBuilder.apply_delta`: dispatch on `(delta_type, delta_action)`
(unhandled variants only warn), then — on every non-raising path, handled or
not — update `last_applied_delta_id` to the delta's id.  A raising handler
propagates and skips that update. -/
def NotebookBuilder.apply_delta (dmp : String → String → String)
    (b : NotebookBuilder) (d : FileDelta) : BuildResult :=
  match b.dispatchDelta dmp d with
  | .ok b' => .ok { b' with last_applied_delta_id := some d.id }
  | .error b' => .error b'

/-- Apply a list of deltas in order, keeping the in-place state a raising
handler leaves behind (as `RTUClient.apply_delta` does before moving on). -/
def applyAll (dmp : String → String → String) (b : NotebookBuilder)
    (ds : List FileDelta) : NotebookBuilder :=
  ds.foldl (fun b d =>
    match b.apply_delta dmp d with
    | .ok b' => b'
    | .error b' => b') b

/-! ## RTU client delta sequencing (`origami/clients/rtu.py`)

`RTUClient.apply_delta` squashes the delta into the builder and swallows any
exception (`failed_to_squash_delta` is a no-op hook), so the sequencing state
keeps whatever builder state the raise left behind and moves on. -/

/-- The part of `RTUClient` state driven by `queue_or_apply_delta` /
`replay_unapplied_deltas`. -/
structure RTUClientState where
  builder : NotebookBuilder
  unapplied_deltas : List FileDelta := []
deriving Repr, Inhabited

/-- `RTUClient.apply_delta`: squash into the builder; exceptions are caught
and only handed to the (no-op) `failed_to_squash_delta` hook. -/
def RTUClientState.applyDelta (dmp : String → String → String)
    (s : RTUClientState) (d : FileDelta) : RTUClientState :=
  match s.builder.apply_delta dmp d with
  | .ok b' => { s with builder := b' }
  | .error b' => { s with builder := b' }

/-- The `for delta in self.unapplied_deltas: if delta.parent_delta_id ==
self.builder.last_applied_delta_id` scan: first matching element with its
index.  (`list.remove(delta)` removes the first element equal to `delta`,
which is exactly the element at this index: any earlier structurally equal
element would itself have matched the scan first.) -/
def findMatch : List FileDelta → Option Nat → Option (Nat × FileDelta)
  | [], _ => none
  | d :: rest, last =>
    if d.parent_delta_id = last then some (0, d)
    else (findMatch rest last).map (fun p => (p.1 + 1, p.2))

/-- One round of `replay_unapplied_deltas` recursion, with explicit fuel for
structural termination: each successful round removes exactly one queued
delta, so fuel equal to the queue length runs the python recursion to
completion. -/
def replayFuel (dmp : String → String → String) :
    Nat → RTUClientState → RTUClientState
  | 0, s => s
  | fuel + 1, s =>
    match findMatch s.unapplied_deltas s.builder.last_applied_delta_id with
    | none => s
    | some (i, d) =>
      let s' := RTUClientState.applyDelta dmp s d
      replayFuel dmp fuel
        { s' with unapplied_deltas := removeAt s.unapplied_deltas i }

/-- `RTUClient.replay_unapplied_deltas`: apply the first queued delta whose
parent is the current `last_applied_delta_id`, remove it, recurse; stop when
none matches. -/
def RTUClientState.replay (dmp : String → String → String)
    (s : RTUClientState) : RTUClientState :=
  replayFuel dmp s.unapplied_deltas.length s

/-- `RTUClient.queue_or_apply_delta`: apply unconditionally when the builder
has no `last_applied_delta_id`; apply-then-replay when the delta's parent is
the chain head; otherwise queue it. -/
def RTUClientState.queue_or_apply_delta (dmp : String → String → String)
    (s : RTUClientState) (d : FileDelta) : RTUClientState :=
  match s.builder.last_applied_delta_id with
  | none => s.applyDelta dmp d
  | some last =>
    if d.parent_delta_id = some last then
      (s.applyDelta dmp d).replay dmp
    else
      { s with unapplied_deltas := s.unapplied_deltas ++ [d] }

/-! ## File subscribe request selection (`RTUClient.send_file_subscribe`) -/

/-- `FileSubscribeRequestData` (`models/rtu/channels/files.py`): exactly one
of the two fields is set. -/
structure FileSubscribeRequestData where
  from_version_id : Option Nat := none
  from_delta_id : Option Nat := none
deriving Repr, Inhabited

/-- `send_file_subscribe`'s choice of request data:
`if self.builder.last_applied_delta_id and self.builder.last_applied_delta_id
!= uuid.UUID(int=0)` then subscribe by delta id, else by version id (a UUID
object is always truthy in python, so the first conjunct is just
`is not None`). -/
def sendFileSubscribeData (last_applied_delta_id : Option Nat)
    (file_version_id : Nat) : FileSubscribeRequestData :=
  match last_applied_delta_id with
  | some v =>
    if v ≠ 0 then { from_delta_id := some v }
    else { from_version_id := some file_version_id }
  | none => { from_version_id := some file_version_id }

/-! ## Kernel / cell state tracking (`RTUClient.on_bulk_cell_state_update`) -/

/-- `CellState` in `models/kernels.py`: one entry of a bulk cell state
update. -/
structure CellStateItem where
  cell_id : String
  state : String
deriving Repr, Inhabited

/-- What a resolved execution future holds: the cell from the builder, or the
`CellNotFound` exception. -/
inductive FutResult where
  | cell (c : Cell)
  | cellNotFound (cell_id : String)
deriving Repr

/-- An `asyncio.Future` from `_execute_cell_events`: single-shot, `done` once
resolved. -/
structure ExecFut where
  done : Bool := false
  result : Option FutResult := none
deriving Repr, Inhabited

/-- `CellState.is_terminal_state` (`origami/types/deltas.py`): the six
terminal cell execution states, as their wire tags. -/
def isTerminalState (s : String) : Bool :=
  s = "not_run" || s = "finished_with_no_error" || s = "finished_with_error" ||
  s = "catastrophic_failure" || s = "dequeued" || s = "interrupted"

/-- What a resolving future is set to: the builder's current cell, or the
`CellNotFound` exception if the cell was deleted between submit and
terminal. -/
def futResolution (b : NotebookBuilder) (cid : String) : FutResult :=
  match b.get_cell cid with
  | some (_, c) => FutResult.cell c
  | none => FutResult.cellNotFound cid

/-- One iteration of the `for item in msg.data.cell_states` loop in
`on_bulk_cell_state_update`: resolve a monitored, not-yet-done future when the
state is one of `["finished_with_error", "finished_with_no_error"]` (with the
builder's current cell, or `CellNotFound` if it was deleted meanwhile), then
record the state into the fresh `cell_states` dict. -/
def bulkStep (b : NotebookBuilder)
    (acc : List (String × String) × List (String × ExecFut))
    (item : CellStateItem) :
    List (String × String) × List (String × ExecFut) :=
  let (cs, pending) := acc
  let pending' :=
    match lookupKV pending item.cell_id with
    | none => pending
    | some fut =>
      if item.state = "finished_with_error" || item.state = "finished_with_no_error" then
        if fut.done then pending
        else
          insertKV pending item.cell_id
            { done := true, result := some (futResolution b item.cell_id) }
      else pending
  (insertKV cs item.cell_id item.state, pending')

/-- Does this bulk-update item resolve a pending future for `cid`?  (Same
cell id, and one of the two states the handler actually checks.) -/
def matchFinished (cid : String) (it : CellStateItem) : Bool :=
  it.cell_id == cid &&
  (it.state = "finished_with_error" || it.state = "finished_with_no_error")

/-- `on_bulk_cell_state_update`: `self.cell_states = {}` discards the old
mapping wholesale (the `old_cell_states` argument is deliberately unused),
then the loop above runs over the update's items. -/
def on_bulk_cell_state_update (b : NotebookBuilder)
    (pending : List (String × ExecFut))
    (old_cell_states : List (String × String))
    (items : List CellStateItem) :
    List (String × String) × List (String × ExecFut) :=
  let _ := old_cell_states
  items.foldl (bulkStep b) ([], pending)

/-! ## Derived accessors and fixtures -/

/-- The cell ids currently in the document (`RTUClient.cell_ids`). -/
def NotebookBuilder.cellIds (b : NotebookBuilder) : List String :=
  b.nb.cells.map Cell.id

/-- `cell.metadata["noteable"]["cell_type"]`, when `noteable` is a dict. -/
def metaNoteableCellType (c : Cell) : Option Json :=
  ((lookupKV c.metadata "noteable").bind asObj).bind (fun sub => lookupKV sub "cell_type")

/-- A minimal code cell fixture (all required fields provided). -/
def sampleCell (cid : String) : Cell :=
  { id := cid, cell_type := "code", sourceSet := true, source := some "",
    metadataSet := true, metadata := [], execCountSet := false,
    execution_count := none, outputsSet := false, outputs := [] }

/-- A notebook fixture around a cell list. -/
def sampleNotebook (cells : List Cell) : Notebook :=
  { nbformat := 4, nbformat_minor := 5, metadata := [], cells := cells }

/-- A fresh builder over the fixture notebook (no deltas applied yet). -/
def sampleBuilder (cells : List Cell) : NotebookBuilder :=
  { nb := sampleNotebook cells }

/-- Trivial stand-in for the diff-match-patch merge in concrete scenarios
where no `cell_contents/update` delta occurs. -/
def noDmp : String → String → String := fun _ s => s

/-- Scenario-A delta `Dᵢ`: an always-applicable `nb_metadata/update` delta
that records its own application at metadata key `"d<i>"`. -/
def scenarioDelta (i : Nat) (parent : Option Nat) : FileDelta :=
  { id := i, parent_delta_id := parent, delta_type := "nb_metadata",
    delta_action := "update",
    properties := { path := some ["d" ++ toString i], value := .num i } }

/-! ## Canonical JSON and the strict wire-format predicate (for round-trip)

`orjson` emits dict keys in insertion order (= pydantic field order), while
the incoming JSON may order keys arbitrarily; JSON objects are unordered, so
"structurally equal" compares objects up to key order.  `Json.canon`
recursively sorts object keys, so structural equality is equality of
canonical forms. -/

/-- Computable lexicographic order on char lists (by code point). -/
def charListLe : List Char → List Char → Bool
  | [], _ => true
  | _ :: _, [] => false
  | a :: as, b :: bs =>
    if a.toNat < b.toNat then true
    else if b.toNat < a.toNat then false
    else charListLe as bs

/-- Computable total order on strings used for canonical key order. -/
def strLe (a b : String) : Bool := charListLe a.data b.data

/-- Insert into a key-sorted association list. -/
def insertSortedKV (p : String × Json) : List (String × Json) → List (String × Json)
  | [] => [p]
  | q :: qs => if strLe p.1 q.1 then p :: q :: qs else q :: insertSortedKV p qs

/-- Insertion sort of an association list by key. -/
def sortKV : List (String × Json) → List (String × Json)
  | [] => []
  | p :: ps => insertSortedKV p (sortKV ps)

mutual

/-- Canonical form: object keys sorted at every level. -/
def Json.canon : Json → Json
  | .null => .null
  | .bool b => .bool b
  | .num n => .num n
  | .str s => .str s
  | .arr xs => .arr (canonList xs)
  | .obj kvs => .obj (sortKV (canonKVs kvs))

def canonList : List Json → List Json
  | [] => []
  | x :: xs => x.canon :: canonList xs

def canonKVs : List (String × Json) → List (String × Json)
  | [] => []
  | (k, v) :: rest => (k, v.canon) :: canonKVs rest

end

/-- No duplicate keys (what a dict-born JSON object always satisfies). -/
def nodupKeysB {α : Type} : List (String × α) → Bool
  | [] => true
  | (k, _) :: rest => (lookupKV rest k).isNone && nodupKeysB rest

/-- Every key is from the allowed list. -/
def subsetKeys (kvs : List (String × Json)) (allowed : List String) : Bool :=
  kvs.all (fun p => allowed.contains p.1)

/-- The modeled keys of an output object with the given `output_type` tag. -/
def outputKeys : String → List String
  | "stream" => ["output_type", "name", "text"]
  | "display_data" => ["output_type", "data", "metadata"]
  | "execute_result" => ["output_type", "execution_count", "data", "metadata"]
  | "error" => ["output_type", "ename", "evalue", "traceback"]
  | _ => []

/-- An output object carrying only modeled keys, without duplicates. -/
def strictOutputJson (j : Json) : Bool :=
  match j with
  | .obj kvs =>
    nodupKeysB kvs &&
    (match lookupKV kvs "output_type" with
     | some (.str tag) => subsetKeys kvs (outputKeys tag)
     | _ => false)
  | _ => false

/-- The modeled keys of a cell object with the given `cell_type` tag. -/
def cellKeys : String → List String
  | "code" => ["id", "cell_type", "source", "metadata", "execution_count", "outputs"]
  | _ => ["id", "cell_type", "source", "metadata"]

/-- A cell object carrying only modeled keys (per variant), without
duplicates, whose outputs (if a JSON array) are strict as well. -/
def strictCellJson (j : Json) : Bool :=
  match j with
  | .obj kvs =>
    nodupKeysB kvs &&
    (match lookupKV kvs "cell_type" with
     | some (.str tag) =>
       subsetKeys kvs (cellKeys tag) &&
       (if tag = "code" then
          match lookupKV kvs "outputs" with
          | some (.arr os) => os.all strictOutputJson
          | some _ => true
          | none => true
        else true)
     | _ => false)
  | _ => false

/-- A notebook object carrying only the four modeled keys, without
duplicates, whose cells (if a JSON array) are strict. -/
def strictNotebookJson (j : Json) : Bool :=
  match j with
  | .obj kvs =>
    nodupKeysB kvs &&
    subsetKeys kvs ["nbformat", "nbformat_minor", "metadata", "cells"] &&
    (match lookupKV kvs "cells" with
     | some (.arr cs) => cs.all strictCellJson
     | some _ => true
     | none => true)
  | _ => false

/-- The `multiline_source` normalization on a raw JSON value: an array of
strings becomes the newline-joined string; everything else is untouched. -/
def normSourceVal (v : Json) : Json :=
  match v with
  | .arr xs =>
    match xs.mapM asStr with
    | some ls => .str (String.intercalate "\n" ls)
    | none => .arr xs
  | v => v

/-- Value transformer of `normalizeCellJson`: only the `source` entry is
rewritten. -/
def normCellVal (k : String) (v : Json) : Json :=
  if k = "source" then normSourceVal v else v

/-- Normalize the `source` entry of a cell object. -/
def normalizeCellJson : Json → Json
  | .obj kvs => .obj (kvs.map (fun p => (p.1, normCellVal p.1 p.2)))
  | j => j

/-- Value transformer of `normalizeNotebookJson`: only the `cells` entry is
rewritten, cell by cell. -/
def normNBVal (k : String) (v : Json) : Json :=
  if k = "cells" then
    match v with
    | .arr cs => .arr (cs.map normalizeCellJson)
    | v => v
  else v

/-- Normalize every cell of the notebook's `cells` entry. -/
def normalizeNotebookJson : Json → Json
  | .obj kvs => .obj (kvs.map (fun p => (p.1, normNBVal p.1 p.2)))
  | j => j

/-- Number of keys of a JSON object (a separating observation used to tell
two canonical forms apart). -/
def numKeys : Json → Nat
  | .obj kvs => kvs.length
  | _ => 0

/-- A notebook JSON that `parse_obj_as(Notebook, …)` accepts (pydantic's
default config silently ignores the unmodeled `x_extra` key) but whose
round-trip through the model drops that key. -/
def extraKeyNotebookJson : Json :=
  .obj [("nbformat", .num 4), ("nbformat_minor", .num 5),
        ("metadata", .obj []), ("cells", .arr []),
        ("x_extra", .bool true)]

/-- A representative strict notebook JSON: a code cell with an
array-of-strings source, an execution count and a stream output, plus a
markdown cell; keys deliberately out of dump order. -/
def roundTripNotebookJson : Json :=
  .obj [("nbformat", .num 4), ("nbformat_minor", .num 5),
        ("metadata", .obj [("kernelspec", .str "python3")]),
        ("cells", .arr
          [.obj [("cell_type", .str "code"), ("id", .str "c1"),
                 ("source", .arr [.str "a = 1", .str "a"]),
                 ("metadata", .obj []),
                 ("execution_count", .num 3),
                 ("outputs", .arr
                   [.obj [("output_type", .str "stream"),
                          ("name", .str "stdout"), ("text", .str "1")]])],
           .obj [("id", .str "c2"), ("cell_type", .str "markdown"),
                 ("source", .str "# title"), ("metadata", .obj [])]])]

/-- The parsed form of `roundTripNotebookJson`. -/
def roundTripNotebook : Notebook :=
  { nbformat := 4, nbformat_minor := 5,
    metadata := [("kernelspec", .str "python3")],
    cells :=
      [{ id := "c1", cell_type := "code", sourceSet := true,
         source := some "a = 1\na", metadataSet := true, metadata := [],
         execCountSet := true, execution_count := some 3, outputsSet := true,
         outputs := [.stream "stdout" "1"] },
       { id := "c2", cell_type := "markdown", sourceSet := true,
         source := some "# title", metadataSet := true, metadata := [],
         execCountSet := false, execution_count := none, outputsSet := false,
         outputs := [] }] }

/-! # Theorems

General helper lemmas first, then one theorem per specification claim
(with witnesses / counterexamples). -/

theorem lookupKV_insert_self {α : Type} (m : List (String × α)) (k : String) (v : α) :
    lookupKV (insertKV m k v) k = some v := by
  induction m with
  | nil => simp [insertKV, lookupKV]
  | cons p rest ih =>
    obtain ⟨k', v'⟩ := p
    by_cases h : k' = k
    · simp [insertKV, h, lookupKV]
    · simp [insertKV, h, lookupKV, ih]

theorem lookupKV_insert_ne {α : Type} (m : List (String × α)) {k k' : String}
    (v : α) (h : k' ≠ k) :
    lookupKV (insertKV m k v) k' = lookupKV m k' := by
  have h' : k ≠ k' := Ne.symm h
  induction m with
  | nil => simp [insertKV, lookupKV, h']
  | cons p rest ih =>
    obtain ⟨k0, v0⟩ := p
    by_cases h0 : k0 = k
    · subst h0
      simp [insertKV, lookupKV, h']
    · simp [insertKV, h0, lookupKV, ih]

/-- `get_cell` returns the cell at the returned index, and it has the
requested id. -/
theorem findCell_get {cells : List Cell} {cid : String} {i : Nat} {c : Cell}
    (h : findCell cells cid = some (i, c)) :
    cells[i]? = some c ∧ c.id = cid := by
  induction cells generalizing i c with
  | nil => simp [findCell] at h
  | cons hd tl ih =>
    by_cases hid : hd.id = cid
    · simp [findCell, hid] at h
      obtain ⟨rfl, rfl⟩ := h
      simpa using hid
    · simp [findCell, hid] at h
      match hq : findCell tl cid with
      | none => rw [hq] at h; simp at h
      | some (j, c') =>
        rw [hq] at h
        simp at h
        obtain ⟨a, ⟨ha1, ha2⟩, ha3⟩ := h
        subst ha2
        have := ih hq
        subst ha1
        subst ha3
        simpa using this

/-! ## C1 — delta sequencing, Scenario A (corrected)

The claim expects all five deltas applied and an empty queue.  On the code,
the very first delta in wire order (D2) is applied unconditionally because
`last_applied_delta_id` is unset, so the chain roots at D2; when D1 finally
arrives its parent (the root sentinel) does not match `last_applied_delta_id
= D5.id` and D1 is queued forever. -/

/-- C1 counterexample: running Scenario A's wire order through
`queue_or_apply_delta` leaves D1 queued (so the unapplied queue is not empty)
and never applies it (no `"d1"` metadata mark), contradicting the claimed
"all five applied, queue empty". -/
theorem scenarioA_claim_counterexample :
    (([scenarioDelta 2 (some 1), scenarioDelta 5 (some 4), scenarioDelta 4 (some 3),
       scenarioDelta 3 (some 2), scenarioDelta 1 (some 0)].foldl
        (RTUClientState.queue_or_apply_delta noDmp)
        { builder := sampleBuilder [] }).unapplied_deltas.map FileDelta.id = [1]) ∧
    (lookupKV ([scenarioDelta 2 (some 1), scenarioDelta 5 (some 4), scenarioDelta 4 (some 3),
       scenarioDelta 3 (some 2), scenarioDelta 1 (some 0)].foldl
        (RTUClientState.queue_or_apply_delta noDmp)
        { builder := sampleBuilder [] }).builder.nb.metadata "d1" = none) :=
  ⟨rfl, rfl⟩

/-- C1 (amended): feeding `queue_or_apply_delta` the Scenario-A wire order
D2, D5, D4, D3, D1 from a builder with `last_applied_delta_id` unset applies
D2 immediately (unconditional first apply), replays D3, D4, D5 when D3
arrives, ends with `last_applied_delta_id = D5.id`, and leaves exactly D1 —
whose parent is the root sentinel, not D5 — in the unapplied queue. -/
theorem scenarioA_amended :
    (([scenarioDelta 2 (some 1), scenarioDelta 5 (some 4), scenarioDelta 4 (some 3),
       scenarioDelta 3 (some 2), scenarioDelta 1 (some 0)].foldl
        (RTUClientState.queue_or_apply_delta noDmp)
        { builder := sampleBuilder [] }).builder.last_applied_delta_id = some 5) ∧
    (([scenarioDelta 2 (some 1), scenarioDelta 5 (some 4), scenarioDelta 4 (some 3),
       scenarioDelta 3 (some 2), scenarioDelta 1 (some 0)].foldl
        (RTUClientState.queue_or_apply_delta noDmp)
        { builder := sampleBuilder [] }).builder.nb.metadata.map Prod.fst
      = ["d2", "d3", "d4", "d5"]) ∧
    (([scenarioDelta 2 (some 1), scenarioDelta 5 (some 4), scenarioDelta 4 (some 3),
       scenarioDelta 3 (some 2), scenarioDelta 1 (some 0)].foldl
        (RTUClientState.queue_or_apply_delta noDmp)
        { builder := sampleBuilder [] }).unapplied_deltas.map FileDelta.id = [1]) :=
  ⟨rfl, rfl, rfl⟩

/-! ## C6 — file subscribe request selection (confirmed) -/

/-- C6: `send_file_subscribe` subscribes by `from_delta_id =
last_applied_delta_id` exactly when that id is set and non-zero, otherwise by
`from_version_id = current version id`; an all-zero delta id is never sent as
`from_delta_id`. -/
theorem send_file_subscribe_selection (last : Option Nat) (version : Nat) :
    (∀ v, last = some v → v ≠ 0 →
      sendFileSubscribeData last version =
        { from_version_id := none, from_delta_id := some v }) ∧
    (last = none ∨ last = some 0 →
      sendFileSubscribeData last version =
        { from_version_id := some version, from_delta_id := none }) ∧
    (sendFileSubscribeData last version).from_delta_id ≠ some 0 := by
  refine ⟨?_, ?_, ?_⟩
  · rintro v rfl hv
    simp [sendFileSubscribeData, hv]
  · rintro (rfl | rfl) <;> simp [sendFileSubscribeData]
  · cases last with
    | none => simp [sendFileSubscribeData]
    | some v =>
      by_cases hv : v = 0 <;> simp [sendFileSubscribeData, hv]

/-- C6 witness: a non-zero head subscribes by delta id, the zero sentinel by
version id, and the zero sentinel is never the `from_delta_id`. -/
theorem send_file_subscribe_selection_witness :
    sendFileSubscribeData (some 7) 3 =
      { from_version_id := none, from_delta_id := some 7 } ∧
    sendFileSubscribeData (some 0) 3 =
      { from_version_id := some 3, from_delta_id := none } ∧
    (sendFileSubscribeData (some 0) 3).from_delta_id ≠ some 0 :=
  ⟨(send_file_subscribe_selection (some 7) 3).1 7 rfl (by decide),
   (send_file_subscribe_selection (some 0) 3).2.1 (Or.inr rfl),
   (send_file_subscribe_selection (some 0) 3).2.2⟩

/-! ## C7 — successful `apply_delta` sets `last_applied_delta_id` (confirmed) -/

/-- C7: for every handled delta variant and every builder state, a
non-raising `apply_delta D` leaves `last_applied_delta_id = D.id`. -/
theorem apply_delta_sets_last_applied (dmp : String → String → String)
    (b b' : NotebookBuilder) (d : FileDelta)
    (_hhandled : handledPair d.delta_type d.delta_action = true)
    (h : b.apply_delta dmp d = .ok b') :
    b'.last_applied_delta_id = some d.id := by
  unfold NotebookBuilder.apply_delta at h
  cases hres : b.dispatchDelta dmp d with
  | ok b2 =>
    rw [hres] at h
    simp at h
    rw [← h]
  | error b2 =>
    rw [hres] at h
    simp at h

/-- C7 witness: a concrete `cell_execute/execute` delta applied to the empty
builder. -/
theorem apply_delta_sets_last_applied_witness :
    ({ nb := sampleNotebook [], last_applied_delta_id := some 42,
       deleted_cell_ids := [] } : NotebookBuilder).last_applied_delta_id = some 42 :=
  apply_delta_sets_last_applied noDmp (sampleBuilder [])
    { nb := sampleNotebook [], last_applied_delta_id := some 42, deleted_cell_ids := [] }
    { id := 42, delta_type := "cell_execute", delta_action := "execute" }
    (by decide) rfl

/-! ## C5 — `cell_metadata/replace` language write (corrected)

The write of `props.language` into `metadata.noteable.cell_type` sits inside
the `if props.type:` branch of `replace_cell_metadata`, so a delta that sets
only `language` changes nothing. -/

/-- C5 counterexample: a `cell_metadata/replace` delta with
`language="sql"` and no `type` applies successfully but leaves the target
cell's metadata untouched — no `noteable.cell_type` is written. -/
theorem replace_cell_metadata_language_only_counterexample :
    (sampleBuilder [sampleCell "c1"]).apply_delta noDmp
        { id := 1, delta_type := "cell_metadata", delta_action := "replace",
          resource_id := "c1", properties := { language := some "sql" } } =
      .ok { nb := sampleNotebook [sampleCell "c1"], last_applied_delta_id := some 1,
            deleted_cell_ids := [] } ∧
    metaNoteableCellType (sampleCell "c1") = none :=
  ⟨rfl, rfl⟩

/-- C5 (amended): `replace_cell_metadata` writes a truthy `language` into
`metadata.noteable.cell_type` only when the delta also carries a truthy new
`type`; in that case (with the re-validation through the tagged union
succeeding and a dict-valued `noteable` entry) the language value is written
into the re-modeled cell. -/
theorem replace_cell_metadata_writes_language (dmp : String → String → String)
    (b : NotebookBuilder) (d : FileDelta) (idx : Nat) (cell newCell : Cell)
    (t l : String)
    (htype : d.delta_type = "cell_metadata") (haction : d.delta_action = "replace")
    (hget : b.get_cell d.resource_id = some (idx, cell))
    (ht : d.properties.type = some t) (ht0 : t ≠ "")
    (hl : d.properties.language = some l) (hl0 : l ≠ "")
    (hparse : parseCell (Cell.toDictAs { cell with cell_type := t } cell.cell_type)
      = some newCell)
    (hnoteable : ∀ j, lookupKV newCell.metadata "noteable" = some j → (asObj j).isSome) :
    ∃ b' c', b.apply_delta dmp d = .ok b' ∧ b'.nb.cells[idx]? = some c' ∧
      metaNoteableCellType c' = some (.str l) ∧
      b'.last_applied_delta_id = some d.id := by
  have hlen : idx < b.nb.cells.length := by
    have := (findCell_get hget).1
    exact (List.getElem?_eq_some.mp this).1
  have htb : truthyS d.properties.type = true := by
    cases hemp : t.isEmpty with
    | false => simp [truthyS, ht, hemp]
    | true => exact absurd ((String.isEmpty_iff t).mp hemp) ht0
  have hlb : truthyS d.properties.language = true := by
    cases hemp : l.isEmpty with
    | false => simp [truthyS, hl, hemp]
    | true => exact absurd ((String.isEmpty_iff l).mp hemp) hl0
  have hres : b.dispatchDelta dmp d = b.replace_cell_metadata d := by
    unfold NotebookBuilder.dispatchDelta
    rw [htype, haction]
    rfl
  unfold NotebookBuilder.apply_delta
  rw [hres]
  unfold NotebookBuilder.replace_cell_metadata
  rw [hget, htb]
  simp only [if_true, ht, Option.getD_some, hparse, hlb]
  cases hno : lookupKV newCell.metadata "noteable" with
  | none =>
    simp only [hl, Option.getD_some]
    exact ⟨_, _, rfl, List.getElem?_set_eq_of_lt _ hlen,
      by simp [metaNoteableCellType, lookupKV_insert_self, asObj, lookupKV], rfl⟩
  | some j =>
    have hobj := hnoteable j hno
    cases j with
    | obj sub =>
      simp only [hl, Option.getD_some]
      exact ⟨_, _, rfl, List.getElem?_set_eq_of_lt _ hlen,
        by simp [metaNoteableCellType, lookupKV_insert_self, asObj, lookupKV_insert_self], rfl⟩
    | null => simp [asObj] at hobj
    | bool bb => simp [asObj] at hobj
    | num n => simp [asObj] at hobj
    | str s => simp [asObj] at hobj
    | arr xs => simp [asObj] at hobj

/-- C5 witness: changing a cell to `type="code"` with `language="sql"`
writes `metadata.noteable.cell_type = "sql"`. -/
theorem replace_cell_metadata_writes_language_witness :
    ∃ b' c',
      (sampleBuilder [sampleCell "c1"]).apply_delta noDmp
          { id := 1, delta_type := "cell_metadata", delta_action := "replace",
            resource_id := "c1",
            properties := { language := some "sql", type := some "code" } } =
        .ok b' ∧
      b'.nb.cells[0]? = some c' ∧
      metaNoteableCellType c' = some (.str "sql") ∧
      b'.last_applied_delta_id = some 1 :=
  replace_cell_metadata_writes_language noDmp (sampleBuilder [sampleCell "c1"])
    { id := 1, delta_type := "cell_metadata", delta_action := "replace",
      resource_id := "c1",
      properties := { language := some "sql", type := some "code" } }
    0 (sampleCell "c1")
    { id := "c1", cell_type := "code", sourceSet := true, source := some "",
      metadataSet := true, metadata := [], execCountSet := true,
      execution_count := none, outputsSet := true, outputs := [] }
    "code" "sql" rfl rfl rfl rfl (by decide) rfl (by decide) rfl
    (by intro j hj; simp [lookupKV] at hj)

/-! ## C8 — nested-path metadata update (confirmed) -/

/-- Successful `setPath` writes the value at the end of the path. -/
theorem setPath_lookupPath {path : List String} {m m' : List (String × Json)}
    {value : Json} (h : setPath m path value = .ok m') :
    lookupPath m' path = some value := by
  induction path generalizing m m' with
  | nil => simp [setPath] at h
  | cons k rest ih =>
    cases rest with
    | nil =>
      simp [setPath] at h
      subst h
      simp [lookupPath, lookupKV_insert_self]
    | cons k' rest' =>
      simp only [setPath] at h
      split at h
      · split at h
        · simp at h
        · next sub hsub =>
          simp at h
          subst h
          simp [lookupPath, lookupKV_insert_self]
          exact ih hsub
      · next sub hlk =>
        split at h
        · simp at h
        · next sub' hsub =>
          simp at h
          subst h
          simp [lookupPath, lookupKV_insert_self]
          exact ih hsub
      · simp at h

/-- C8: Scenario C — an `nb_metadata/update` delta with
`path=["a","b","c"]`, `value=7` on a notebook with empty metadata produces
`{"a":{"b":{"c":7}}}`; and in general a successful nested-path update creates
the missing intermediate mappings and assigns the final key, so the full path
reads back the assigned value. -/
theorem nb_metadata_update_nested_path :
    ((sampleBuilder []).apply_delta noDmp
        { id := 1, delta_type := "nb_metadata", delta_action := "update",
          properties := { path := some ["a", "b", "c"], value := .num 7 } } =
      .ok { nb := { nbformat := 4, nbformat_minor := 5,
                    metadata := [("a", .obj [("b", .obj [("c", .num 7)])])],
                    cells := [] },
            last_applied_delta_id := some 1, deleted_cell_ids := [] }) ∧
    (∀ (m m' : List (String × Json)) (path : List String) (value : Json),
      setPath m path value = .ok m' → lookupPath m' path = some value) :=
  ⟨rfl, fun _ _ _ _ h => setPath_lookupPath h⟩

/-- C8 witness: the general clause instantiated on Scenario C's path. -/
theorem nb_metadata_update_nested_path_witness :
    lookupPath [("a", .obj [("b", .obj [("c", .num 7)])])] ["a", "b", "c"]
      = some (.num 7) :=
  nb_metadata_update_nested_path.2 [] _ ["a", "b", "c"] (.num 7) rfl

/-! ## C3 — atomicity of `apply_delta` on error (corrected)

`move_cell` pops the cell before resolving `after_id`, and
`replace_cell_metadata` overwrites the `cell_type` attribute before the
re-validation can fail, so a raising `apply_delta` can leave the cells list
partially mutated.  What does survive every raise: `last_applied_delta_id`,
the notebook metadata, and `deleted_cell_ids`. -/

theorem add_cell_error_eq {b b' : NotebookBuilder} {d : FileDelta}
    (h : b.add_cell d = .error b') : b' = b := by
  unfold NotebookBuilder.add_cell at h
  repeat' split at h
  all_goals simp_all

theorem delete_cell_error_eq {b b' : NotebookBuilder} {d : FileDelta}
    (h : b.delete_cell d = .error b') : b' = b := by
  unfold NotebookBuilder.delete_cell at h
  repeat' split at h
  all_goals simp_all

theorem update_cell_contents_error_eq {dmp : String → String → String}
    {b b' : NotebookBuilder} {d : FileDelta}
    (h : NotebookBuilder.update_cell_contents dmp b d = .error b') : b' = b := by
  unfold NotebookBuilder.update_cell_contents at h
  repeat' split at h
  all_goals simp_all

theorem replace_cell_contents_error_eq {b b' : NotebookBuilder} {d : FileDelta}
    (h : b.replace_cell_contents d = .error b') : b' = b := by
  unfold NotebookBuilder.replace_cell_contents at h
  repeat' split at h
  all_goals simp_all

theorem update_cell_metadata_error_eq {b b' : NotebookBuilder} {d : FileDelta}
    (h : b.update_cell_metadata d = .error b') : b' = b := by
  unfold NotebookBuilder.update_cell_metadata at h
  repeat' split at h
  all_goals simp_all

theorem update_notebook_metadata_error_eq {b b' : NotebookBuilder} {d : FileDelta}
    (h : b.update_notebook_metadata d = .error b') : b' = b := by
  unfold NotebookBuilder.update_notebook_metadata at h
  repeat' split at h
  all_goals simp_all

theorem replace_cell_output_collection_error_eq {b b' : NotebookBuilder} {d : FileDelta}
    (h : b.replace_cell_output_collection d = .error b') : b' = b := by
  unfold NotebookBuilder.replace_cell_output_collection at h
  repeat' split at h
  all_goals simp_all

/-- A raising `move_cell` only ever mutates the cells list. -/
theorem move_cell_error_inv {b b' : NotebookBuilder} {d : FileDelta}
    (h : b.move_cell d = .error b') :
    b'.last_applied_delta_id = b.last_applied_delta_id ∧
    b'.nb.metadata = b.nb.metadata ∧
    b'.deleted_cell_ids = b.deleted_cell_ids := by
  unfold NotebookBuilder.move_cell at h
  repeat' split at h
  all_goals try simp_all
  all_goals (split at h <;> try simp_all)
  all_goals (subst h; exact ⟨rfl, rfl, rfl⟩)

/-- A raising `replace_cell_metadata` only ever mutates the cells list. -/
theorem replace_cell_metadata_error_inv {b b' : NotebookBuilder} {d : FileDelta}
    (h : b.replace_cell_metadata d = .error b') :
    b'.last_applied_delta_id = b.last_applied_delta_id ∧
    b'.nb.metadata = b.nb.metadata ∧
    b'.deleted_cell_ids = b.deleted_cell_ids := by
  unfold NotebookBuilder.replace_cell_metadata at h
  repeat' split at h
  all_goals try simp_all
  all_goals try (split at h <;> try simp_all)
  all_goals try (split at h <;> try simp_all)
  all_goals (subst h; exact ⟨rfl, rfl, rfl⟩)

/-- C3 counterexample: an `nb_cells/move` delta whose `after_id` does not
exist raises `CellNotFound`, but the moved cell has already been popped: the
builder goes from cells `["c1","c2"]` to `["c2"]` across the raise, so the
state after the raise differs from the state before the call. -/
theorem apply_delta_atomicity_counterexample :
    ((sampleBuilder [sampleCell "c1", sampleCell "c2"]).apply_delta noDmp
        { id := 1, delta_type := "nb_cells", delta_action := "move",
          resource_id := "c1",
          properties := { id := some "c1", after_id := some "c3" } } =
      .error { nb := sampleNotebook [sampleCell "c2"],
               last_applied_delta_id := none, deleted_cell_ids := [] }) ∧
    (sampleBuilder [sampleCell "c1", sampleCell "c2"]).nb.cells.map Cell.id
      = ["c1", "c2"] ∧
    (sampleNotebook [sampleCell "c2"]).cells.map Cell.id = ["c2"] :=
  ⟨rfl, rfl, rfl⟩

/-- C3 (amended): if `apply_delta` raises, then `last_applied_delta_id`, the
notebook metadata and `deleted_cell_ids` are unchanged, but the cells list may
be left partially mutated (`nb_cells/move` pops the cell before resolving a
missing `after_id`; `cell_metadata/replace` overwrites the type tag before
re-validation can fail). -/
theorem apply_delta_error_preserves (dmp : String → String → String)
    (b b' : NotebookBuilder) (d : FileDelta)
    (h : b.apply_delta dmp d = .error b') :
    b'.last_applied_delta_id = b.last_applied_delta_id ∧
    b'.nb.metadata = b.nb.metadata ∧
    b'.deleted_cell_ids = b.deleted_cell_ids := by
  unfold NotebookBuilder.apply_delta at h
  cases hres : b.dispatchDelta dmp d with
  | ok b2 => rw [hres] at h; simp at h
  | error b2 =>
    rw [hres] at h
    simp at h
    subst h
    unfold NotebookBuilder.dispatchDelta at hres
    cases hk : deltaKind d.delta_type d.delta_action <;> rw [hk] at hres
    case nbAdd => exact (add_cell_error_eq hres) ▸ ⟨rfl, rfl, rfl⟩
    case nbDelete => exact (delete_cell_error_eq hres) ▸ ⟨rfl, rfl, rfl⟩
    case nbMove => exact move_cell_error_inv hres
    case contentsUpdate => exact (update_cell_contents_error_eq hres) ▸ ⟨rfl, rfl, rfl⟩
    case contentsReplace => exact (replace_cell_contents_error_eq hres) ▸ ⟨rfl, rfl, rfl⟩
    case cellMetaUpdate => exact (update_cell_metadata_error_eq hres) ▸ ⟨rfl, rfl, rfl⟩
    case cellMetaReplace => exact replace_cell_metadata_error_inv hres
    case nbMetaUpdate => exact (update_notebook_metadata_error_eq hres) ▸ ⟨rfl, rfl, rfl⟩
    case outputCollectionReplace =>
      exact (replace_cell_output_collection_error_eq hres) ▸ ⟨rfl, rfl, rfl⟩
    case execute => simp [NotebookBuilder.log_execute_delta] at hres
    case unhandled => simp at hres

/-! ## List scaffolding for the cell-id invariant -/

theorem insertAt_perm (l : List α) (n : Nat) (a : α) :
    (insertAt l n a).Perm (a :: l) := by
  have h := @List.perm_middle _ a (l.take n) (l.drop n)
  rw [List.take_append_drop] at h
  exact h

theorem map_insertAt (f : α → β) (l : List α) (n : Nat) (a : α) :
    (insertAt l n a).map f = insertAt (l.map f) n (f a) := by
  unfold insertAt
  simp [List.map_take, List.map_drop]

theorem removeAt_sublist (l : List α) (n : Nat) : (removeAt l n).Sublist l := by
  induction l generalizing n with
  | nil => simp [removeAt]
  | cons x t ih =>
    cases n with
    | zero =>
      simp only [removeAt]
      exact List.sublist_cons_self x t
    | succ m =>
      simp only [removeAt]
      exact (ih m).cons₂ x

theorem map_removeAt (f : α → β) (l : List α) (n : Nat) :
    (removeAt l n).map f = removeAt (l.map f) n := by
  induction l generalizing n with
  | nil => simp [removeAt]
  | cons x t ih =>
    cases n with
    | zero => simp [removeAt]
    | succ m => simp [removeAt, ih]

theorem perm_cons_removeAt {l : List α} {n : Nat} {a : α}
    (h : l[n]? = some a) : l.Perm (a :: removeAt l n) := by
  induction l generalizing n with
  | nil => simp at h
  | cons x t ih =>
    cases n with
    | zero =>
      simp at h
      subst h
      simp [removeAt]
    | succ m =>
      simp at h
      have hperm := (ih h).cons x
      simp only [removeAt]
      exact hperm.trans (List.Perm.swap a x _)

theorem not_mem_removeAt {l : List α} {n : Nat} {a : α}
    (hnd : l.Nodup) (h : l[n]? = some a) : a ∉ removeAt l n := by
  induction l generalizing n with
  | nil => simp [removeAt]
  | cons x t ih =>
    obtain ⟨hx, ht⟩ := List.nodup_cons.mp hnd
    cases n with
    | zero =>
      simp at h
      subst h
      simpa [removeAt] using hx
    | succ m =>
      simp at h
      simp only [removeAt]
      intro hmem
      rcases List.mem_cons.mp hmem with rfl | hmem2
      · obtain ⟨hlt, rfl⟩ := List.getElem?_eq_some.mp h
        exact hx (List.getElem_mem hlt)
      · exact ih ht h hmem2

theorem set_getElem?_eq_self {l : List α} {n : Nat} {a : α}
    (h : l[n]? = some a) : l.set n a = l := by
  induction l generalizing n with
  | nil => rfl
  | cons x t ih =>
    cases n with
    | zero =>
      simp at h
      subst h
      simp
    | succ m =>
      simp at h
      simp [ih h]

/-- Re-writing a cell in place with an id-preserving update keeps the id
list unchanged. -/
theorem ids_set_cell {cells : List Cell} {idx : Nat} {cell cell' : Cell}
    (hget : cells[idx]? = some cell) (hid : cell'.id = cell.id) :
    (cells.set idx cell').map Cell.id = cells.map Cell.id := by
  rw [List.map_set, hid]
  apply set_getElem?_eq_self
  rw [List.getElem?_map, hget]
  rfl

/-- A parsed cell's id is exactly the object's (string) `id` entry. -/
theorem parseCell_id {kvs : List (String × Json)} {c : Cell}
    (h : parseCell (.obj kvs) = some c) :
    lookupKV kvs "id" = some (.str c.id) := by
  unfold parseCell at h
  simp only [asObj] at h
  repeat' split at h
  all_goals try simp_all
  all_goals (subst h; rfl)

/-! ## Per-handler shape of successful applies (cell-id level) -/

/-- An accepted `nb_cells/add` either no-ops or inserts exactly one cell
carrying `props.id`, leaving `deleted_cell_ids` untouched. -/
theorem add_cell_ok_ids {b b2 : NotebookBuilder} {d : FileDelta}
    (h : b.add_cell d = .ok b2) :
    b2 = b ∨
    (∃ pid, d.properties.id = some pid ∧
      (b2.nb.cells.map Cell.id).Perm (pid :: b.nb.cells.map Cell.id) ∧
      b2.deleted_cell_ids = b.deleted_cell_ids) := by
  unfold NotebookBuilder.add_cell at h
  cases hid : d.properties.id with
  | none => rw [hid] at h; simp only [] at h; exact absurd h (by simp)
  | some pid =>
    rw [hid] at h; simp only [] at h
    cases hcell : d.properties.cell with
    | none =>
      rw [hcell] at h; simp only [] at h
      simp at h
      exact Or.inl h.symm
    | some cellKvs =>
      rw [hcell] at h; simp only [] at h
      by_cases hemp : cellKvs.isEmpty = true
      · rw [if_pos hemp] at h
        simp at h
        exact Or.inl h.symm
      · rw [if_neg hemp] at h
        cases hparse : parseCell (.obj (insertKV cellKvs "id" (.str pid))) with
        | none => rw [hparse] at h; simp only [] at h; exact absurd h (by simp)
        | some newCell =>
          rw [hparse] at h; simp only [] at h
          have hnid : newCell.id = pid := by
            have hl := parseCell_id hparse
            rw [lookupKV_insert_self] at hl
            injection hl with hl
            injection hl with hl
            exact hl.symm
          by_cases htr : truthyS d.properties.after_id = true
          · rw [if_pos htr] at h
            cases hget : b.get_cell (d.properties.after_id.getD "") with
            | none => rw [hget] at h; simp only [] at h; exact absurd h (by simp)
            | some p =>
              obtain ⟨idx, c0⟩ := p
              rw [hget] at h; simp only [] at h
              simp at h
              refine Or.inr ⟨pid, rfl, ?_, ?_⟩
              · rw [← h]
                simp only [map_insertAt]
                rw [hnid]
                exact insertAt_perm _ _ _
              · rw [← h]
          · rw [if_neg htr] at h
            simp at h
            refine Or.inr ⟨pid, rfl, ?_, ?_⟩
            · rw [← h]
              simp [hnid]
            · rw [← h]

/-- An accepted `nb_cells/delete` either no-ops or removes the first cell
with `props.id` and records that id. -/
theorem delete_cell_ok_ids {b b2 : NotebookBuilder} {d : FileDelta}
    (h : b.delete_cell d = .ok b2) :
    b2 = b ∨
    (∃ pid idx, d.properties.id = some pid ∧
      (b.nb.cells.map Cell.id)[idx]? = some pid ∧
      b2.nb.cells.map Cell.id = removeAt (b.nb.cells.map Cell.id) idx ∧
      (b2.deleted_cell_ids = b.deleted_cell_ids ∨
       b2.deleted_cell_ids = b.deleted_cell_ids ++ [pid])) := by
  unfold NotebookBuilder.delete_cell at h
  cases hid : d.properties.id with
  | none => rw [hid] at h; simp only [] at h; exact absurd h (by simp)
  | some pid =>
    rw [hid] at h; simp only [] at h
    by_cases hpe : pid = ""
    · rw [if_pos hpe] at h
      simp at h
      exact Or.inl h.symm
    · rw [if_neg hpe] at h
      cases hget : b.get_cell pid with
      | none => rw [hget] at h; simp only [] at h; exact absurd h (by simp)
      | some p =>
        obtain ⟨idx, c0⟩ := p
        rw [hget] at h; simp only [] at h
        simp at h
        obtain ⟨hc1, hc2⟩ := findCell_get hget
        refine Or.inr ⟨pid, idx, rfl, ?_, ?_, ?_⟩
        · rw [List.getElem?_map, hc1]
          simp [hc2]
        · rw [← h]
          simp only [map_removeAt]
        · rw [← h]
          by_cases hm : pid ∈ b.deleted_cell_ids
          · exact Or.inl (by simp [hm])
          · exact Or.inr (by simp [hm])

/-- An accepted `nb_cells/move` permutes the cell ids and leaves
`deleted_cell_ids` untouched. -/
theorem move_cell_ok_ids {b b2 : NotebookBuilder} {d : FileDelta}
    (h : b.move_cell d = .ok b2) :
    (b2.nb.cells.map Cell.id).Perm (b.nb.cells.map Cell.id) ∧
    b2.deleted_cell_ids = b.deleted_cell_ids := by
  unfold NotebookBuilder.move_cell at h
  cases hid : d.properties.id with
  | none => rw [hid] at h; simp only [] at h; exact absurd h (by simp)
  | some pid =>
    rw [hid] at h; simp only [] at h
    by_cases haid : d.properties.after_id = some pid
    · rw [if_pos haid] at h
      simp at h
      rw [← h]
      exact ⟨List.Perm.refl _, rfl⟩
    · rw [if_neg haid] at h
      cases hget : b.get_cell pid with
      | none => rw [hget] at h; simp only [] at h; exact absurd h (by simp)
      | some p =>
        obtain ⟨idx, c0⟩ := p
        rw [hget] at h; simp only [] at h
        obtain ⟨hc1, hc2⟩ := findCell_get hget
        have hids : (b.nb.cells.map Cell.id)[idx]? = some c0.id := by
          rw [List.getElem?_map, hc1]; rfl
        by_cases htr : truthyS d.properties.after_id = true
        · rw [if_pos htr] at h
          cases hg2 : NotebookBuilder.get_cell
              { b with nb.cells := removeAt b.nb.cells idx }
              (d.properties.after_id.getD "") with
          | none => rw [hg2] at h; simp only [] at h; exact absurd h (by simp)
          | some q =>
            obtain ⟨tidx, c1⟩ := q
            rw [hg2] at h; simp only [] at h
            simp at h
            constructor
            · rw [← h]
              simp only [map_insertAt, map_removeAt]
              exact (insertAt_perm _ _ _).trans (perm_cons_removeAt hids).symm
            · rw [← h]
        · rw [if_neg htr] at h
          simp at h
          constructor
          · rw [← h]
            simp only [List.map_cons, map_removeAt]
            exact (perm_cons_removeAt hids).symm
          · rw [← h]

/-- `cell_contents/update` rewrites one cell in place: ids unchanged. -/
theorem update_cell_contents_ok_ids {dmp : String → String → String}
    {b b2 : NotebookBuilder} {d : FileDelta}
    (h : NotebookBuilder.update_cell_contents dmp b d = .ok b2) :
    b2.nb.cells.map Cell.id = b.nb.cells.map Cell.id ∧
    b2.deleted_cell_ids = b.deleted_cell_ids := by
  unfold NotebookBuilder.update_cell_contents at h
  cases hp : d.properties.patch with
  | none => rw [hp] at h; simp only [] at h; exact absurd h (by simp)
  | some patchText =>
    rw [hp] at h; simp only [] at h
    cases hget : b.get_cell d.resource_id with
    | none => rw [hget] at h; simp only [] at h; exact absurd h (by simp)
    | some p =>
      obtain ⟨idx, cell⟩ := p
      rw [hget] at h; simp only [] at h
      cases hsrc : cell.source with
      | none => rw [hsrc] at h; simp only [] at h; exact absurd h (by simp)
      | some src =>
        rw [hsrc] at h; simp only [] at h
        simp at h
        rw [← h]
        exact ⟨ids_set_cell (findCell_get hget).1 rfl, rfl⟩

/-- `cell_contents/replace` rewrites one cell in place: ids unchanged. -/
theorem replace_cell_contents_ok_ids {b b2 : NotebookBuilder} {d : FileDelta}
    (h : b.replace_cell_contents d = .ok b2) :
    b2.nb.cells.map Cell.id = b.nb.cells.map Cell.id ∧
    b2.deleted_cell_ids = b.deleted_cell_ids := by
  unfold NotebookBuilder.replace_cell_contents at h
  cases hget : b.get_cell d.resource_id with
  | none => rw [hget] at h; simp only [] at h; exact absurd h (by simp)
  | some p =>
    obtain ⟨idx, cell⟩ := p
    rw [hget] at h; simp only [] at h
    simp at h
    rw [← h]
    exact ⟨ids_set_cell (findCell_get hget).1 rfl, rfl⟩

/-- `cell_metadata/update` skips or rewrites one cell in place. -/
theorem update_cell_metadata_ok_ids {b b2 : NotebookBuilder} {d : FileDelta}
    (h : b.update_cell_metadata d = .ok b2) :
    b2.nb.cells.map Cell.id = b.nb.cells.map Cell.id ∧
    b2.deleted_cell_ids = b.deleted_cell_ids := by
  unfold NotebookBuilder.update_cell_metadata at h
  by_cases hdel : d.resource_id ∈ b.deleted_cell_ids
  · rw [if_pos hdel] at h
    simp at h
    rw [← h]
    exact ⟨rfl, rfl⟩
  · rw [if_neg hdel] at h
    cases hget : b.get_cell d.resource_id with
    | none =>
      rw [hget] at h; simp only [] at h
      simp at h
      rw [← h]
      exact ⟨rfl, rfl⟩
    | some p =>
      obtain ⟨idx, cell⟩ := p
      rw [hget] at h; simp only [] at h
      cases hp : d.properties.path with
      | none => rw [hp] at h; simp only [] at h; exact absurd h (by simp)
      | some path =>
        rw [hp] at h; simp only [] at h
        cases hsp : setPath cell.metadata path d.properties.value with
        | error e => rw [hsp] at h; simp only [] at h; exact absurd h (by simp)
        | ok m' =>
          rw [hsp] at h; simp only [] at h
          simp at h
          rw [← h]
          exact ⟨ids_set_cell (findCell_get hget).1 rfl, rfl⟩

/-- `cell_metadata/replace` no-ops or re-models one cell in place with the
same id. -/
theorem replace_cell_metadata_ok_ids {b b2 : NotebookBuilder} {d : FileDelta}
    (h : b.replace_cell_metadata d = .ok b2) :
    b2.nb.cells.map Cell.id = b.nb.cells.map Cell.id ∧
    b2.deleted_cell_ids = b.deleted_cell_ids := by
  unfold NotebookBuilder.replace_cell_metadata at h
  cases hget : b.get_cell d.resource_id with
  | none => rw [hget] at h; simp only [] at h; exact absurd h (by simp)
  | some p =>
    obtain ⟨idx, cell⟩ := p
    rw [hget] at h; simp only [] at h
    by_cases htr : truthyS d.properties.type = true
    · rw [if_pos htr] at h
      cases hparse : parseCell
          (Cell.toDictAs { cell with cell_type := d.properties.type.getD "" }
            cell.cell_type) with
      | none => rw [hparse] at h; simp only [] at h; exact absurd h (by simp)
      | some newCell =>
        rw [hparse] at h; simp only [] at h
        have hnid : newCell.id = cell.id := by
          have hl : lookupKV
              ([("id", .str cell.id),
                ("source", dumpOptStr cell.source),
                ("metadata", .obj cell.metadata),
                ("cell_type", .str (d.properties.type.getD ""))]
               ++ (if cell.cell_type = "code" then
                     [("execution_count", dumpOptInt cell.execution_count),
                      ("outputs", .arr (cell.outputs.map dumpOutputFull))]
                   else [])) "id" = some (.str newCell.id) :=
            parseCell_id (by simpa [Cell.toDictAs] using hparse)
          simp [lookupKV] at hl
          exact hl.symm
        by_cases hlang : truthyS d.properties.language = true
        · rw [if_pos hlang] at h
          cases hno : lookupKV newCell.metadata "noteable" with
          | none =>
            rw [hno] at h; simp only [] at h
            simp at h
            rw [← h]
            exact ⟨ids_set_cell (findCell_get hget).1 hnid, rfl⟩
          | some j =>
            rw [hno] at h
            cases j with
            | obj sub =>
              simp only [] at h
              simp at h
              rw [← h]
              exact ⟨ids_set_cell (findCell_get hget).1 hnid, rfl⟩
            | null => simp at h
            | bool bb => simp at h
            | num n => simp at h
            | str s => simp at h
            | arr xs => simp at h
        · rw [if_neg hlang] at h
          simp at h
          rw [← h]
          exact ⟨ids_set_cell (findCell_get hget).1 hnid, rfl⟩
    · rw [if_neg htr] at h
      simp at h
      rw [← h]
      exact ⟨rfl, rfl⟩

/-- `cell_output_collection/replace` skips or rewrites one cell in place. -/
theorem replace_cell_output_collection_ok_ids {b b2 : NotebookBuilder}
    {d : FileDelta} (h : b.replace_cell_output_collection d = .ok b2) :
    b2.nb.cells.map Cell.id = b.nb.cells.map Cell.id ∧
    b2.deleted_cell_ids = b.deleted_cell_ids := by
  unfold NotebookBuilder.replace_cell_output_collection at h
  by_cases hdel : d.resource_id ∈ b.deleted_cell_ids
  · rw [if_pos hdel] at h
    simp at h
    rw [← h]
    exact ⟨rfl, rfl⟩
  · rw [if_neg hdel] at h
    cases hoc : d.properties.output_collection_id with
    | none => rw [hoc] at h; simp only [] at h; exact absurd h (by simp)
    | some ocid =>
      rw [hoc] at h; simp only [] at h
      cases hget : b.get_cell d.resource_id with
      | none =>
        rw [hget] at h; simp only [] at h
        simp at h
        rw [← h]
        exact ⟨rfl, rfl⟩
      | some p =>
        obtain ⟨idx, cell⟩ := p
        rw [hget] at h; simp only [] at h
        cases hno : lookupKV cell.metadata "noteable" with
        | none =>
          rw [hno] at h; simp only [] at h
          simp at h
          rw [← h]
          exact ⟨ids_set_cell (findCell_get hget).1 rfl, rfl⟩
        | some j =>
          rw [hno] at h
          cases j with
          | obj sub =>
            simp only [] at h
            simp at h
            rw [← h]
            exact ⟨ids_set_cell (findCell_get hget).1 rfl, rfl⟩
          | null => simp at h
          | bool bb => simp at h
          | num n => simp at h
          | str s => simp at h
          | arr xs => simp at h

/-- `nb_metadata/update` never touches cells or `deleted_cell_ids`. -/
theorem update_notebook_metadata_ok_ids {b b2 : NotebookBuilder} {d : FileDelta}
    (h : b.update_notebook_metadata d = .ok b2) :
    b2.nb.cells.map Cell.id = b.nb.cells.map Cell.id ∧
    b2.deleted_cell_ids = b.deleted_cell_ids := by
  unfold NotebookBuilder.update_notebook_metadata at h
  cases hp : d.properties.path with
  | none => rw [hp] at h; simp only [] at h; exact absurd h (by simp)
  | some path =>
    rw [hp] at h; simp only [] at h
    cases hsp : setPath b.nb.metadata path d.properties.value with
    | error e => rw [hsp] at h; simp only [] at h; exact absurd h (by simp)
    | ok m' =>
      rw [hsp] at h; simp only [] at h
      simp at h
      rw [← h]
      exact ⟨rfl, rfl⟩

/-! ## The canonical key order is a total order -/

theorem charListLe_total (a b : List Char) :
    charListLe a b = true ∨ charListLe b a = true := by
  induction a generalizing b with
  | nil => exact Or.inl rfl
  | cons x xs ih =>
    cases b with
    | nil => exact Or.inr rfl
    | cons y ys =>
      by_cases hxy : x.toNat < y.toNat
      · exact Or.inl (by simp [charListLe, hxy])
      · by_cases hyx : y.toNat < x.toNat
        · exact Or.inr (by simp [charListLe, hyx])
        · rcases ih ys with h | h
          · exact Or.inl (by simp [charListLe, hxy, hyx, h])
          · exact Or.inr (by simp [charListLe, hxy, hyx, h])

theorem charListLe_antisymm {a b : List Char}
    (h1 : charListLe a b = true) (h2 : charListLe b a = true) : a = b := by
  induction a generalizing b with
  | nil =>
    cases b with
    | nil => rfl
    | cons y ys => simp [charListLe] at h2
  | cons x xs ih =>
    cases b with
    | nil => simp [charListLe] at h1
    | cons y ys =>
      by_cases hxy : x.toNat < y.toNat
      · simp [charListLe, hxy, Nat.lt_asymm hxy] at h2
      · by_cases hyx : y.toNat < x.toNat
        · simp [charListLe, hxy, hyx] at h1
        · have hx : x = y := Char.eq_of_val_eq (UInt32.toNat.inj
            (by simp only [Char.toNat] at hxy hyx; omega))
          subst hx
          simp [charListLe, hxy, hyx] at h1 h2
          rw [ih h1 h2]

theorem charListLe_trans {a b c : List Char}
    (h1 : charListLe a b = true) (h2 : charListLe b c = true) :
    charListLe a c = true := by
  induction a generalizing b c with
  | nil => rfl
  | cons x xs ih =>
    cases b with
    | nil => simp [charListLe] at h1
    | cons y ys =>
      cases c with
      | nil => simp [charListLe] at h2
      | cons z zs =>
        by_cases hxy : x.toNat < y.toNat
        · by_cases hyz : y.toNat < z.toNat
          · simp [charListLe]; omega
          · by_cases hzy : z.toNat < y.toNat
            · simp [charListLe, hyz, hzy] at h2
            · simp [charListLe]; omega
        · by_cases hyx : y.toNat < x.toNat
          · simp [charListLe, hxy, hyx] at h1
          · by_cases hyz : y.toNat < z.toNat
            · simp [charListLe]; omega
            · by_cases hzy : z.toNat < y.toNat
              · simp [charListLe, hyz, hzy] at h2
              · have hxz : ¬x.toNat < z.toNat := by omega
                have hzx : ¬z.toNat < x.toNat := by omega
                simp [charListLe, hxy, hyx] at h1
                simp [charListLe, hyz, hzy] at h2
                simp [charListLe, hxz, hzx]
                exact ih h1 h2

theorem strLe_total (a b : String) : strLe a b = true ∨ strLe b a = true :=
  charListLe_total a.data b.data

theorem strLe_antisymm {a b : String}
    (h1 : strLe a b = true) (h2 : strLe b a = true) : a = b := by
  have h := charListLe_antisymm h1 h2
  cases a; cases b
  exact congrArg String.mk h

theorem strLe_trans {a b c : String}
    (h1 : strLe a b = true) (h2 : strLe b c = true) : strLe a c = true :=
  charListLe_trans h1 h2

/-! ## Insertion sort by key: permutation, sortedness, uniqueness -/

/-- Key-sortedness of an association list. -/
def KeySorted (l : List (String × Json)) : Prop :=
  l.Pairwise (fun p q => strLe p.1 q.1 = true)

theorem insertSortedKV_perm (p : String × Json) (l : List (String × Json)) :
    (insertSortedKV p l).Perm (p :: l) := by
  induction l with
  | nil => simp [insertSortedKV]
  | cons q qs ih =>
    by_cases h : strLe p.1 q.1 = true
    · simp [insertSortedKV, h]
    · simp only [insertSortedKV, if_neg h]
      exact (ih.cons q).trans (List.Perm.swap p q qs)

theorem sortKV_perm (l : List (String × Json)) : (sortKV l).Perm l := by
  induction l with
  | nil => simp [sortKV]
  | cons p ps ih =>
    exact (insertSortedKV_perm p (sortKV ps)).trans (ih.cons p)

theorem insertSortedKV_sorted {l : List (String × Json)} (p : String × Json)
    (h : KeySorted l) : KeySorted (insertSortedKV p l) := by
  induction l with
  | nil => simp [insertSortedKV, KeySorted]
  | cons q qs ih =>
    by_cases hle : strLe p.1 q.1 = true
    · simp only [insertSortedKV, if_pos hle]
      refine List.Pairwise.cons ?_ h
      intro r hr
      rcases List.mem_cons.mp hr with rfl | hr2
      · exact hle
      · have hq := (List.pairwise_cons.mp h).1 r hr2
        exact strLe_trans hle hq
    · simp only [insertSortedKV, if_neg hle]
      obtain ⟨hq, hqs⟩ := List.pairwise_cons.mp h
      refine List.Pairwise.cons ?_ (ih hqs)
      intro r hr
      have hr' := (insertSortedKV_perm p qs).mem_iff.mp hr
      rcases List.mem_cons.mp hr' with rfl | hr2
      · rcases strLe_total q.1 r.1 with hqr | hrq
        · exact hqr
        · exact absurd hrq hle
      · exact hq r hr2

theorem sortKV_sorted (l : List (String × Json)) : KeySorted (sortKV l) := by
  induction l with
  | nil => simp [sortKV, KeySorted]
  | cons p ps ih => exact insertSortedKV_sorted p ih

/-- Two key-sorted association lists with duplicate-free keys that are
permutations of each other are equal. -/
theorem keySorted_eq_of_perm :
    ∀ {l₁ l₂ : List (String × Json)}, l₁.Perm l₂ → KeySorted l₁ → KeySorted l₂ →
      (l₁.map Prod.fst).Nodup → l₁ = l₂ := by
  intro l₁
  induction l₁ with
  | nil =>
    intro l₂ hperm _ _ _
    exact (List.Perm.nil_eq hperm).symm ▸ rfl
  | cons p t₁ ih =>
    intro l₂ hperm hs₁ hs₂ hnd₁
    cases l₂ with
    | nil => exact absurd hperm.symm (by simp)
    | cons q t₂ =>
      have hpq : p = q := by
        have hpmem : p ∈ q :: t₂ := hperm.mem_iff.mp (List.mem_cons_self p t₁)
        rcases List.mem_cons.mp hpmem with h | hpt₂
        · exact h
        · have hqmem : q ∈ p :: t₁ := hperm.symm.mem_iff.mp (List.mem_cons_self q t₂)
          rcases List.mem_cons.mp hqmem with h | hqt₁
          · exact h.symm
          · -- both strictly inside: keys equal by antisymmetry, contradicting nodup
            have h1 : strLe p.1 q.1 = true := (List.pairwise_cons.mp hs₁).1 q hqt₁
            have h2 : strLe q.1 p.1 = true := (List.pairwise_cons.mp hs₂).1 p hpt₂
            have hkey : p.1 = q.1 := strLe_antisymm h1 h2
            have hnd := List.nodup_cons.mp hnd₁
            exact absurd (hkey ▸ (List.mem_map_of_mem Prod.fst hqt₁)) hnd.1
      subst hpq
      have htperm : t₁.Perm t₂ := hperm.cons_inv
      have ht₁ := (List.pairwise_cons.mp hs₁).2
      have ht₂ := (List.pairwise_cons.mp hs₂).2
      have hndt := (List.nodup_cons.mp hnd₁).2
      rw [ih htperm ht₁ ht₂ hndt]

/-- Sorting is permutation-invariant on duplicate-free-key lists. -/
theorem sortKV_eq_of_perm {l₁ l₂ : List (String × Json)} (hperm : l₁.Perm l₂)
    (hnd : (l₁.map Prod.fst).Nodup) : sortKV l₁ = sortKV l₂ := by
  have hperm' : (sortKV l₁).Perm (sortKV l₂) :=
    ((sortKV_perm l₁).trans hperm).trans (sortKV_perm l₂).symm
  have hnd₁ : ((sortKV l₁).map Prod.fst).Nodup := by
    have := (sortKV_perm l₁).map Prod.fst
    exact (this.nodup_iff).mpr hnd
  exact keySorted_eq_of_perm hperm' (sortKV_sorted l₁) (sortKV_sorted l₂) hnd₁

/-! ## Association-list lookups, duplicate-free keys, permutations -/

theorem lookupKV_eq_none_iff {α : Type} {l : List (String × α)} {k : String} :
    lookupKV l k = none ↔ k ∉ l.map Prod.fst := by
  induction l with
  | nil => simp [lookupKV]
  | cons p rest ih =>
    obtain ⟨k', v'⟩ := p
    by_cases h : k' = k
    · subst h; simp [lookupKV]
    · simp only [lookupKV, if_neg h, List.map_cons, List.mem_cons]
      rw [ih]
      constructor
      · intro hn hor
        rcases hor with heq | hm
        · exact h heq.symm
        · exact hn hm
      · intro hno hm
        exact hno (Or.inr hm)

theorem lookupKV_mem {α : Type} {l : List (String × α)} {k : String} {v : α}
    (h : lookupKV l k = some v) : (k, v) ∈ l := by
  induction l with
  | nil => simp [lookupKV] at h
  | cons p rest ih =>
    obtain ⟨k', v'⟩ := p
    by_cases hk : k' = k
    · subst hk
      simp [lookupKV] at h
      subst h
      exact List.mem_cons_self _ _
    · simp only [lookupKV, if_neg hk] at h
      exact List.mem_cons_of_mem _ (ih h)

theorem lookupKV_append {α : Type} (s t : List (String × α)) (k : String) :
    lookupKV (s ++ t) k =
      match lookupKV s k with
      | some v => some v
      | none => lookupKV t k := by
  induction s with
  | nil => simp [lookupKV]
  | cons p ps ih =>
    obtain ⟨k', v'⟩ := p
    by_cases h : k' = k <;> simp [lookupKV, h, ih]

theorem nodupKeysB_iff {α : Type} {l : List (String × α)} :
    nodupKeysB l = true ↔ (l.map Prod.fst).Nodup := by
  induction l with
  | nil => simp [nodupKeysB]
  | cons p rest ih =>
    obtain ⟨k, v⟩ := p
    simp only [nodupKeysB, Bool.and_eq_true, List.map_cons, List.nodup_cons]
    rw [Option.isNone_iff_eq_none, lookupKV_eq_none_iff, ih]

/-- Duplicate-free association lists that agree on every lookup are
permutations of each other. -/
theorem perm_of_lookup_eq {α : Type} :
    ∀ {l₁ l₂ : List (String × α)}, nodupKeysB l₁ = true → nodupKeysB l₂ = true →
      (∀ k, lookupKV l₁ k = lookupKV l₂ k) → l₁.Perm l₂ := by
  intro l₁
  induction l₁ with
  | nil =>
    intro l₂ _ _ h
    cases l₂ with
    | nil => exact List.Perm.refl _
    | cons q t₂ =>
      have := h q.1
      simp [lookupKV] at this
  | cons p t₁ ih =>
    intro l₂ hnd₁ hnd₂ h
    obtain ⟨k, v⟩ := p
    have hhead : lookupKV l₂ k = some v := by
      have := h k
      simpa [lookupKV] using this.symm
    obtain ⟨s, t, rfl⟩ := List.append_of_mem (lookupKV_mem hhead)
    have hmid : (s ++ (k, v) :: t).Perm ((k, v) :: (s ++ t)) := List.perm_middle
    -- key facts from nodup
    simp only [nodupKeysB, Bool.and_eq_true, Option.isNone_iff_eq_none] at hnd₁
    obtain ⟨hnone₁, hndt₁⟩ := hnd₁
    have hnd₂' : ((s ++ (k, v) :: t).map Prod.fst).Nodup := nodupKeysB_iff.mp hnd₂
    have hnd₂'' : (((k, v) :: (s ++ t)).map Prod.fst).Nodup :=
      ((hmid.map Prod.fst).nodup_iff).mp hnd₂'
    simp only [List.map_cons, List.nodup_cons] at hnd₂''
    obtain ⟨hknotin, hndst⟩ := hnd₂''
    have hndst' : nodupKeysB (s ++ t) = true := nodupKeysB_iff.mpr hndst
    refine List.Perm.trans (List.Perm.cons (k, v) (ih hndt₁ hndst' ?_)) hmid.symm
    intro k'
    by_cases hk' : k' = k
    · subst hk'
      rw [hnone₁, Eq.symm (lookupKV_eq_none_iff.mpr hknotin)]
    · have hkk' : ¬k = k' := fun heq => hk' heq.symm
      have hsplit := h k'
      simp only [lookupKV, if_neg hkk'] at hsplit
      rw [hsplit, lookupKV_append, lookupKV_append]
      have hcons : lookupKV ((k, v) :: t) k' = lookupKV t k' := by
        simp [lookupKV, hkk']
      cases hls : lookupKV s k' <;> simp [hcons]

/-! ## Canonicalization commutes with value maps and permutations -/

theorem canonList_eq_map (xs : List Json) : canonList xs = xs.map Json.canon := by
  induction xs with
  | nil => rfl
  | cons x xs ih => simp [canonList, ih]

theorem canonKVs_eq_map (kvs : List (String × Json)) :
    canonKVs kvs = kvs.map (fun p => (p.1, Json.canon p.2)) := by
  induction kvs with
  | nil => rfl
  | cons p rest ih =>
    obtain ⟨k, v⟩ := p
    simp [canonKVs, ih]

theorem canonKVs_keys (kvs : List (String × Json)) :
    (canonKVs kvs).map Prod.fst = kvs.map Prod.fst := by
  rw [canonKVs_eq_map, List.map_map]
  rfl

theorem lookupKV_canonKVs (kvs : List (String × Json)) (k : String) :
    lookupKV (canonKVs kvs) k = (lookupKV kvs k).map Json.canon := by
  induction kvs with
  | nil => rfl
  | cons p rest ih =>
    obtain ⟨k', v'⟩ := p
    by_cases h : k' = k <;> simp [canonKVs, lookupKV, h, ih]

/-- Two JSON objects with duplicate-free keys and canonically equal values at
every key have the same canonical form. -/
theorem canon_obj_eq {kvs₁ kvs₂ : List (String × Json)}
    (h₁ : nodupKeysB kvs₁ = true) (h₂ : nodupKeysB kvs₂ = true)
    (h : ∀ k, (lookupKV kvs₁ k).map Json.canon = (lookupKV kvs₂ k).map Json.canon) :
    Json.canon (.obj kvs₁) = Json.canon (.obj kvs₂) := by
  have hnd₁ : nodupKeysB (canonKVs kvs₁) = true := by
    rw [nodupKeysB_iff, canonKVs_keys]
    exact nodupKeysB_iff.mp h₁
  have hnd₂ : nodupKeysB (canonKVs kvs₂) = true := by
    rw [nodupKeysB_iff, canonKVs_keys]
    exact nodupKeysB_iff.mp h₂
  have hperm : (canonKVs kvs₁).Perm (canonKVs kvs₂) := by
    refine perm_of_lookup_eq hnd₁ hnd₂ ?_
    intro k
    rw [lookupKV_canonKVs, lookupKV_canonKVs, h k]
  have hkeys : ((canonKVs kvs₁).map Prod.fst).Nodup := by
    rw [canonKVs_keys]; exact nodupKeysB_iff.mp h₁
  show Json.obj (sortKV (canonKVs kvs₁)) = Json.obj (sortKV (canonKVs kvs₂))
  rw [sortKV_eq_of_perm hperm hkeys]

/-! ## Round-trip helpers -/

theorem lookupKV_none_of_subset {kvs : List (String × Json)} {allowed : List String}
    (hsub : subsetKeys kvs allowed = true) {k : String}
    (hk : k ∉ allowed) : lookupKV kvs k = none := by
  rw [lookupKV_eq_none_iff]
  intro hmem
  obtain ⟨p, hp, rfl⟩ := List.mem_map.mp hmem
  have hc := List.all_eq_true.mp hsub p hp
  exact hk (by simpa using hc)

theorem mapM_asStr_eq {xs : List Json} {ls : List String}
    (h : xs.mapM asStr = some ls) : xs = ls.map Json.str := by
  induction xs generalizing ls with
  | nil =>
    simp only [List.mapM_nil, pure, Option.some.injEq] at h
    simp [← h]
  | cons x xs ih =>
    rw [List.mapM_cons] at h
    cases hx : asStr x with
    | none => rw [hx] at h; simp at h
    | some s =>
      rw [hx] at h
      cases hxs : xs.mapM asStr with
      | none => rw [hxs] at h; simp at h
      | some ss =>
        rw [hxs] at h
        simp only [Option.bind_eq_bind, Option.some_bind, Option.pure_def,
          Option.some.injEq] at h
        subst h
        have hxstr : x = Json.str s := by
          cases x <;> simp [asStr] at hx
          rw [hx]
        rw [hxstr, ih hxs]
        rfl

theorem lookupKV_mapVal {α β : Type} (g : String → α → β)
    (l : List (String × α)) (k : String) :
    lookupKV (l.map (fun p => (p.1, g p.1 p.2))) k = (lookupKV l k).map (g k) := by
  induction l with
  | nil => rfl
  | cons p rest ih =>
    obtain ⟨k', v'⟩ := p
    by_cases h : k' = k
    · subst h; simp [lookupKV]
    · simp [lookupKV, h, ih]

/-- `multiline_source` agreement: a successfully parsed `source` value
normalizes to exactly the parsed string. -/
theorem parseSource_norm {v : Json} {s : String}
    (h : parseSource v = some s) : normSourceVal v = .str s := by
  cases v with
  | str t =>
    simp [parseSource] at h
    subst h
    rfl
  | arr xs =>
    simp only [parseSource] at h
    cases hm : xs.mapM asStr with
    | none => rw [hm] at h; simp at h
    | some ls =>
      rw [hm] at h
      simp only [Option.map_some', Option.some.injEq] at h
      simp only [normSourceVal]
      rw [hm]
      simp only []
      rw [h]
  | null => simp [parseSource] at h
  | bool b => simp [parseSource] at h
  | num n => simp [parseSource] at h
  | obj kvs => simp [parseSource] at h

/-- Round-trip at the output level: dumping a strictly-parsed output
reproduces the original JSON up to canonicalization. -/
theorem output_roundtrip {j : Json} {o : Output}
    (hs : strictOutputJson j = true) (hp : parseOutput j = some o) :
    Json.canon (dumpOutput o) = Json.canon j := by
  cases j with
  | obj kvs =>
    simp only [strictOutputJson, Bool.and_eq_true] at hs
    obtain ⟨hnd, hsub⟩ := hs
    simp only [parseOutput, asObj] at hp
    cases htag : lookupKV kvs "output_type" with
    | none => rw [htag] at hsub; simp at hsub
    | some tv =>
      rw [htag] at hsub hp
      cases tv with
      | str tag =>
        simp only [] at hsub
        split at hp
        case _ heq =>
          simp only [Option.some.injEq, Json.str.injEq] at heq
          subst heq
          split at hp
          case _ name text hname htext =>
            simp only [Option.some.injEq] at hp
            subst hp
            refine canon_obj_eq ?_ hnd ?_
            · simp [nodupKeysB, lookupKV]
            · intro k
              by_cases hk1 : k = "output_type"
              · subst hk1; simp [lookupKV, htag]
              · by_cases hk2 : k = "name"
                · subst hk2; simp [lookupKV, hname]
                · by_cases hk3 : k = "text"
                  · subst hk3; simp [lookupKV, htext]
                  · have hdump : lookupKV [("output_type", Json.str "stream"),
                        ("name", Json.str name), ("text", Json.str text)] k = none := by
                      simp [lookupKV, Ne.symm hk1, Ne.symm hk2, Ne.symm hk3]
                    have hkvs : lookupKV kvs k = none :=
                      lookupKV_none_of_subset hsub
                        (by simp [outputKeys, hk1, hk2, hk3])
                    rw [hdump, hkvs]
          case _ => simp at hp
        case _ heq =>
          simp only [Option.some.injEq, Json.str.injEq] at heq
          subst heq
          split at hp
          case _ data mdata hdata hmdata =>
            simp only [Option.some.injEq] at hp
            subst hp
            refine canon_obj_eq ?_ hnd ?_
            · simp [nodupKeysB, lookupKV]
            · intro k
              by_cases hk1 : k = "output_type"
              · subst hk1; simp [lookupKV, htag]
              · by_cases hk2 : k = "data"
                · subst hk2; simp [lookupKV, hdata]
                · by_cases hk3 : k = "metadata"
                  · subst hk3; simp [lookupKV, hmdata]
                  · have hdump : lookupKV [("output_type", Json.str "display_data"),
                        ("data", Json.obj data), ("metadata", Json.obj mdata)] k = none := by
                      simp [lookupKV, Ne.symm hk1, Ne.symm hk2, Ne.symm hk3]
                    have hkvs : lookupKV kvs k = none :=
                      lookupKV_none_of_subset hsub
                        (by simp [outputKeys, hk1, hk2, hk3])
                    rw [hdump, hkvs]
          case _ => simp at hp
        case _ heq =>
          simp only [Option.some.injEq, Json.str.injEq] at heq
          subst heq
          split at hp
          case _ => simp at hp
          case _ ecSet ec hec =>
            split at hp
            case _ data mdata hdata hmdata =>
              simp only [Option.some.injEq] at hp
              subst hp
              refine canon_obj_eq ?_ hnd ?_
              · cases ecSet <;> simp [nodupKeysB, lookupKV]
              · intro k
                by_cases hk1 : k = "output_type"
                · subst hk1; cases ecSet <;> simp [lookupKV, htag]
                · by_cases hk2 : k = "execution_count"
                  · subst hk2
                    cases hec0 : lookupKV kvs "execution_count" with
                    | none =>
                      rw [hec0] at hec
                      simp [parseOptInt] at hec
                      obtain ⟨rfl, rfl⟩ := hec
                      simp [lookupKV, hec0]
                    | some w =>
                      cases w <;> (rw [hec0] at hec; simp [parseOptInt] at hec)
                      · obtain ⟨rfl, rfl⟩ := hec
                        simp [lookupKV, dumpOptInt, hec0, Json.canon]
                      · obtain ⟨rfl, rfl⟩ := hec
                        simp [lookupKV, dumpOptInt, hec0, Json.canon]
                  · by_cases hk3 : k = "data"
                    · subst hk3; cases ecSet <;> simp [lookupKV, Ne.symm hk2, hdata]
                    · by_cases hk4 : k = "metadata"
                      · subst hk4; cases ecSet <;> simp [lookupKV, Ne.symm hk2, hmdata]
                      · have hdump : lookupKV
                            ([("output_type", Json.str "execute_result")]
                              ++ (if ecSet then [("execution_count", dumpOptInt ec)] else [])
                              ++ [("data", Json.obj data), ("metadata", Json.obj mdata)]) k = none := by
                          cases ecSet <;>
                            simp [lookupKV, Ne.symm hk1, Ne.symm hk2, Ne.symm hk3, Ne.symm hk4]
                        have hkvs : lookupKV kvs k = none :=
                          lookupKV_none_of_subset hsub
                            (by simp [outputKeys, hk1, hk2, hk3, hk4])
                        rw [hdump, hkvs]
            case _ => simp at hp
        case _ heq =>
          simp only [Option.some.injEq, Json.str.injEq] at heq
          subst heq
          split at hp
          case _ ename evalue hename hevalue =>
            split at hp
            case _ => simp at hp
            case _ tb htb =>
              split at hp
              case _ => simp at hp
              case _ traceback htrace =>
                simp only [Option.some.injEq] at hp
                subst hp
                have htbarr : tb = Json.arr (traceback.map Json.str) := by
                  cases tb <;> simp [asStrList] at htrace
                  case arr xs => rw [mapM_asStr_eq htrace]
                subst htbarr
                refine canon_obj_eq ?_ hnd ?_
                · simp [nodupKeysB, lookupKV]
                · intro k
                  by_cases hk1 : k = "output_type"
                  · subst hk1; simp [lookupKV, htag]
                  · by_cases hk2 : k = "ename"
                    · subst hk2; simp [lookupKV, hename]
                    · by_cases hk3 : k = "evalue"
                      · subst hk3; simp [lookupKV, hevalue]
                      · by_cases hk4 : k = "traceback"
                        · subst hk4; simp [lookupKV, htb]
                        · have hdump : lookupKV [("output_type", Json.str "error"),
                              ("ename", Json.str ename), ("evalue", Json.str evalue),
                              ("traceback", Json.arr (traceback.map Json.str))] k = none := by
                            simp [lookupKV, Ne.symm hk1, Ne.symm hk2, Ne.symm hk3, Ne.symm hk4]
                          have hkvs : lookupKV kvs k = none :=
                            lookupKV_none_of_subset hsub
                              (by simp [outputKeys, hk1, hk2, hk3, hk4])
                          rw [hdump, hkvs]
          case _ => simp at hp
        case _ =>
          simp at hp
      | null => simp at hsub
      | bool b => simp at hsub
      | num n => simp at hsub
      | arr xs => simp at hsub
      | obj kvs2 => simp at hsub
  | null => simp [strictOutputJson] at hs
  | bool b => simp [strictOutputJson] at hs
  | num n => simp [strictOutputJson] at hs
  | str s => simp [strictOutputJson] at hs
  | arr xs => simp [strictOutputJson] at hs

theorem lookupKV_flag_block {α : Type} (c : Bool) (key k : String) (v : α) :
    lookupKV (if c then [(key, v)] else []) k =
      if key = k then (if c then some v else none) else none := by
  cases c <;> by_cases h : key = k <;> simp [lookupKV, h]

theorem keys_mapVal {α β : Type} (g : String → α → β) (l : List (String × α)) :
    (l.map (fun p => (p.1, g p.1 p.2))).map Prod.fst = l.map Prod.fst := by
  rw [List.map_map]
  rfl

/-- Shape of a successful `source` field parse: unset means the key was
absent; set means the raw value parses to the recorded string. -/
theorem parseSourceField_char {l : Option Json} {b : Bool} {s : String}
    (h : parseSourceField l = some (b, s)) :
    (b = false ∧ l = none) ∨
    (b = true ∧ ∃ v, l = some v ∧ parseSource v = some s) := by
  cases l with
  | none =>
    simp only [parseSourceField, Option.some.injEq, Prod.mk.injEq] at h
    exact Or.inl ⟨h.1.symm, rfl⟩
  | some v =>
    cases hv : parseSource v with
    | none => simp [parseSourceField, hv] at h
    | some t =>
      simp only [parseSourceField, hv, Option.map_some', Option.some.injEq,
        Prod.mk.injEq] at h
      exact Or.inr ⟨h.1.symm, v, rfl, by rw [hv, h.2]⟩

/-- Shape of a successful `metadata` field parse. -/
theorem parseMetadataField_char {l : Option Json} {b : Bool}
    {m : List (String × Json)} (h : parseMetadataField l = some (b, m)) :
    (b = false ∧ m = [] ∧ l = none) ∨ (b = true ∧ l = some (.obj m)) := by
  cases l with
  | none =>
    simp only [parseMetadataField, Option.some.injEq, Prod.mk.injEq] at h
    exact Or.inl ⟨h.1.symm, h.2.symm, rfl⟩
  | some v =>
    cases v <;>
      simp only [parseMetadataField, asObj, Option.map_some', Option.map_none',
        Option.some.injEq, Prod.mk.injEq, reduceCtorEq] at h
    exact Or.inr ⟨h.1.symm, by rw [h.2]⟩

/-- Shape of a successful `execution_count` parse: when set, the original
raw value is exactly the dump of the parsed value. -/
theorem parseOptInt_char {l : Option Json} {b : Bool} {n : Option Int}
    (h : parseOptInt l = some (b, n)) :
    (b = false ∧ n = none ∧ l = none) ∨ (b = true ∧ l = some (dumpOptInt n)) := by
  cases l with
  | none =>
    simp only [parseOptInt, Option.some.injEq, Prod.mk.injEq] at h
    exact Or.inl ⟨h.1.symm, h.2.symm, rfl⟩
  | some v =>
    cases v <;>
      simp only [parseOptInt, Option.some.injEq, Prod.mk.injEq, reduceCtorEq] at h
    · exact Or.inr ⟨h.1.symm, by rw [← h.2]; rfl⟩
    · exact Or.inr ⟨h.1.symm, by rw [← h.2]; rfl⟩

/-- Shape of a successful `outputs` field parse. -/
theorem parseOutputsField_char {l : Option Json} {b : Bool} {os : List Output}
    (h : parseOutputsField l = some (b, os)) :
    (b = false ∧ os = [] ∧ l = none) ∨
    (b = true ∧ ∃ xs, l = some (.arr xs) ∧ xs.mapM parseOutput = some os) := by
  cases l with
  | none =>
    simp only [parseOutputsField, Option.some.injEq, Prod.mk.injEq] at h
    exact Or.inl ⟨h.1.symm, h.2.symm, rfl⟩
  | some v =>
    cases v with
    | arr xs =>
      simp only [parseOutputsField] at h
      cases hm : xs.mapM parseOutput with
      | none => rw [hm] at h; simp at h
      | some os' =>
        rw [hm] at h
        simp only [Option.map_some', Option.some.injEq, Prod.mk.injEq] at h
        exact Or.inr ⟨h.1.symm, xs, rfl, by rw [hm, h.2]⟩
    | null => simp [parseOutputsField] at h
    | bool b' => simp [parseOutputsField] at h
    | num n => simp [parseOutputsField] at h
    | str s => simp [parseOutputsField] at h
    | obj kvs => simp [parseOutputsField] at h

/-- Round-trip at the outputs-list level. -/
theorem outputs_roundtrip_list {xs : List Json} {os : List Output}
    (hall : xs.all strictOutputJson = true)
    (hm : xs.mapM parseOutput = some os) :
    (os.map dumpOutput).map Json.canon = xs.map Json.canon := by
  induction xs generalizing os with
  | nil =>
    simp only [List.mapM_nil, Option.pure_def, Option.some.injEq] at hm
    subst hm
    rfl
  | cons x xs ih =>
    rw [List.mapM_cons] at hm
    cases hx : parseOutput x with
    | none => rw [hx] at hm; simp at hm
    | some o =>
      rw [hx] at hm
      cases hxs : xs.mapM parseOutput with
      | none => rw [hxs] at hm; simp at hm
      | some os' =>
        rw [hxs] at hm
        simp only [Option.bind_eq_bind, Option.some_bind, Option.pure_def,
          Option.some.injEq] at hm
        subst hm
        simp only [List.all_cons, Bool.and_eq_true] at hall
        obtain ⟨hx1, hall'⟩ := hall
        simp only [List.map_cons]
        rw [output_roundtrip hx1 hx, ih hall' hxs]

/-- Round-trip at the cell level: dumping a strictly-parsed cell reproduces
the original JSON up to canonicalization and `source` normalization. -/
theorem cell_roundtrip {j : Json} {c : Cell}
    (hs : strictCellJson j = true) (hp : parseCell j = some c) :
    Json.canon (Cell.dump c) = Json.canon (normalizeCellJson j) := by
  cases j with
  | obj kvs =>
    simp only [strictCellJson, Bool.and_eq_true] at hs
    obtain ⟨hnd, hs⟩ := hs
    simp only [parseCell, asObj] at hp
    cases htag0 : lookupKV kvs "cell_type" with
    | none => rw [htag0] at hs; simp at hs
    | some tv =>
      rw [htag0] at hs hp
      cases tv with
      | str tag =>
        simp only [Bool.and_eq_true] at hs
        obtain ⟨hsub, houtstrict⟩ := hs
        split at hp
        case _ tagp idp heqt heqi =>
          simp only [Option.some.injEq, Json.str.injEq] at heqt
          subst heqt
          split at hp
          case _ => simp at hp
          case _ sourceSet source hsf =>
            split at hp
            case _ => simp at hp
            case _ metadataSet md hmf =>
              split at hp
              case _ htc =>
                -- code cell
                split at hp
                case _ => simp at hp
                case _ ecSet ec hec =>
                  split at hp
                  case _ => simp at hp
                  case _ outSet outs houts =>
                    simp only [Option.some.injEq] at hp
                    subst hp
                    refine canon_obj_eq ?_ ?_ ?_
                    · cases sourceSet <;> cases metadataSet <;>
                        cases ecSet <;> cases outSet <;>
                        simp [nodupKeysB, lookupKV]
                    · rw [nodupKeysB_iff, keys_mapVal]
                      exact nodupKeysB_iff.mp hnd
                    · intro k
                      rw [lookupKV_mapVal]
                      by_cases hk1 : k = "id"
                      · subst hk1
                        simp [lookupKV_append, lookupKV_flag_block, normCellVal, lookupKV, heqi]
                      · by_cases hk2 : k = "cell_type"
                        · subst hk2
                          simp [lookupKV_append, lookupKV_flag_block, normCellVal, lookupKV, htag0]
                        · by_cases hk3 : k = "source"
                          · subst hk3
                            rcases parseSourceField_char hsf with ⟨rfl, hl⟩ |
                              ⟨rfl, v, hl, hpv⟩
                            · simp [lookupKV_append, lookupKV_flag_block, normCellVal,
                                lookupKV, hl]
                            · simp [lookupKV_append, lookupKV_flag_block, normCellVal,
                                lookupKV, dumpOptStr, hl, parseSource_norm hpv]
                          · by_cases hk4 : k = "metadata"
                            · subst hk4
                              rcases parseMetadataField_char hmf with ⟨rfl, rfl, hl⟩ |
                                ⟨rfl, hl⟩
                              · simp [lookupKV_append, lookupKV_flag_block, normCellVal,
                                  lookupKV, hl]
                              · simp [lookupKV_append, lookupKV_flag_block, normCellVal,
                                  lookupKV, hl]
                            · by_cases hk5 : k = "execution_count"
                              · subst hk5
                                rcases parseOptInt_char hec with ⟨rfl, rfl, hl⟩ |
                                  ⟨rfl, hl⟩
                                · simp [lookupKV_append, lookupKV_flag_block, normCellVal,
                                    lookupKV, hl]
                                · simp [lookupKV_append, lookupKV_flag_block, normCellVal,
                                    lookupKV, hl]
                              · by_cases hk6 : k = "outputs"
                                · subst hk6
                                  rcases parseOutputsField_char houts with
                                    ⟨rfl, rfl, hl⟩ | ⟨rfl, xs, hl, hm⟩
                                  · simp [lookupKV_append, lookupKV_flag_block, normCellVal,
                                      lookupKV, hl]
                                  · rw [hl] at houtstrict
                                    simp only [reduceIte] at houtstrict
                                    have hlist : Json.canon
                                        (.arr (outs.map dumpOutput)) =
                                        Json.canon (.arr xs) := by
                                      show Json.arr (canonList (outs.map dumpOutput)) =
                                        Json.arr (canonList xs)
                                      rw [canonList_eq_map, canonList_eq_map,
                                        outputs_roundtrip_list houtstrict hm]
                                    simp [lookupKV_append, lookupKV_flag_block,
                                      normCellVal, lookupKV, hl, hlist]
                                · have hkvs : lookupKV kvs k = none :=
                                    lookupKV_none_of_subset hsub
                                      (by simp [cellKeys, hk1, hk2, hk3, hk4,
                                        hk5, hk6])
                                  simp [lookupKV_append, lookupKV_flag_block, normCellVal,
                                    lookupKV, hkvs, Ne.symm hk1, Ne.symm hk2,
                                    Ne.symm hk3, Ne.symm hk4, Ne.symm hk5,
                                    Ne.symm hk6]
              case _ htm =>
                -- markdown cell
                simp only [Option.some.injEq] at hp
                subst hp
                refine canon_obj_eq ?_ ?_ ?_
                · cases sourceSet <;> cases metadataSet <;>
                    simp [nodupKeysB, lookupKV]
                · rw [nodupKeysB_iff, keys_mapVal]
                  exact nodupKeysB_iff.mp hnd
                · intro k
                  rw [lookupKV_mapVal]
                  by_cases hk1 : k = "id"
                  · subst hk1
                    simp [lookupKV_append, lookupKV_flag_block, normCellVal, lookupKV, heqi]
                  · by_cases hk2 : k = "cell_type"
                    · subst hk2
                      simp [lookupKV_append, lookupKV_flag_block, normCellVal, lookupKV, htag0]
                    · by_cases hk3 : k = "source"
                      · subst hk3
                        rcases parseSourceField_char hsf with ⟨rfl, hl⟩ |
                          ⟨rfl, v, hl, hpv⟩
                        · simp [lookupKV_append, lookupKV_flag_block, normCellVal, lookupKV, hl]
                        · simp [lookupKV_append, lookupKV_flag_block, normCellVal, lookupKV,
                            dumpOptStr, hl, parseSource_norm hpv]
                      · by_cases hk4 : k = "metadata"
                        · subst hk4
                          rcases parseMetadataField_char hmf with ⟨rfl, rfl, hl⟩ |
                            ⟨rfl, hl⟩
                          · simp [lookupKV_append, lookupKV_flag_block, normCellVal, lookupKV, hl]
                          · simp [lookupKV_append, lookupKV_flag_block, normCellVal, lookupKV, hl]
                        · have hkvs : lookupKV kvs k = none :=
                            lookupKV_none_of_subset hsub
                              (by simp [cellKeys, hk1, hk2, hk3, hk4])
                          simp [lookupKV_append, lookupKV_flag_block, normCellVal, lookupKV,
                            hkvs, Ne.symm hk1, Ne.symm hk2, Ne.symm hk3,
                            Ne.symm hk4]
              case _ htr =>
                -- raw cell
                simp only [Option.some.injEq] at hp
                subst hp
                refine canon_obj_eq ?_ ?_ ?_
                · cases sourceSet <;> cases metadataSet <;>
                    simp [nodupKeysB, lookupKV]
                · rw [nodupKeysB_iff, keys_mapVal]
                  exact nodupKeysB_iff.mp hnd
                · intro k
                  rw [lookupKV_mapVal]
                  by_cases hk1 : k = "id"
                  · subst hk1
                    simp [lookupKV_append, lookupKV_flag_block, normCellVal, lookupKV, heqi]
                  · by_cases hk2 : k = "cell_type"
                    · subst hk2
                      simp [lookupKV_append, lookupKV_flag_block, normCellVal, lookupKV, htag0]
                    · by_cases hk3 : k = "source"
                      · subst hk3
                        rcases parseSourceField_char hsf with ⟨rfl, hl⟩ |
                          ⟨rfl, v, hl, hpv⟩
                        · simp [lookupKV_append, lookupKV_flag_block, normCellVal, lookupKV, hl]
                        · simp [lookupKV_append, lookupKV_flag_block, normCellVal, lookupKV,
                            dumpOptStr, hl, parseSource_norm hpv]
                      · by_cases hk4 : k = "metadata"
                        · subst hk4
                          rcases parseMetadataField_char hmf with ⟨rfl, rfl, hl⟩ |
                            ⟨rfl, hl⟩
                          · simp [lookupKV_append, lookupKV_flag_block, normCellVal, lookupKV, hl]
                          · simp [lookupKV_append, lookupKV_flag_block, normCellVal, lookupKV, hl]
                        · have hkvs : lookupKV kvs k = none :=
                            lookupKV_none_of_subset hsub
                              (by simp [cellKeys, hk1, hk2, hk3, hk4])
                          simp [lookupKV_append, lookupKV_flag_block, normCellVal, lookupKV,
                            hkvs, Ne.symm hk1, Ne.symm hk2, Ne.symm hk3,
                            Ne.symm hk4]
              case _ =>
                simp at hp
        case _ =>
          simp at hp
      | null => simp at hs
      | bool b => simp at hs
      | num n => simp at hs
      | arr xs => simp at hs
      | obj kvs2 => simp at hs
  | null => simp [strictCellJson] at hs
  | bool b => simp [strictCellJson] at hs
  | num n => simp [strictCellJson] at hs
  | str s => simp [strictCellJson] at hs
  | arr xs => simp [strictCellJson] at hs

/-- Round-trip at the cells-list level. -/
theorem cells_roundtrip_list {xs : List Json} {cs : List Cell}
    (hall : xs.all strictCellJson = true) (hm : xs.mapM parseCell = some cs) :
    (cs.map Cell.dump).map Json.canon = (xs.map normalizeCellJson).map Json.canon := by
  induction xs generalizing cs with
  | nil =>
    simp only [List.mapM_nil, Option.pure_def, Option.some.injEq] at hm
    subst hm
    rfl
  | cons x xs ih =>
    rw [List.mapM_cons] at hm
    cases hx : parseCell x with
    | none => rw [hx] at hm; simp at hm
    | some c =>
      rw [hx] at hm
      cases hxs : xs.mapM parseCell with
      | none => rw [hxs] at hm; simp at hm
      | some cs' =>
        rw [hxs] at hm
        simp only [Option.bind_eq_bind, Option.some_bind, Option.pure_def,
          Option.some.injEq] at hm
        subst hm
        simp only [List.all_cons, Bool.and_eq_true] at hall
        obtain ⟨hx1, hall'⟩ := hall
        simp only [List.map_cons]
        rw [cell_roundtrip hx1 hx, ih hall' hxs]

/-- **C9** fails as stated: `parse_obj_as(Notebook, …)` accepts JSON with
extra (unmodeled) keys and silently drops them, so re-serializing does not
reproduce the original even up to source normalization and key order:
`extraKeyNotebookJson` parses fine, but its round-trip loses `x_extra`
(the canonical forms differ already in their number of top-level keys). -/
theorem notebook_roundtrip_counterexample :
    parseNotebook extraKeyNotebookJson =
      some { nbformat := 4, nbformat_minor := 5, metadata := [], cells := [] } ∧
    Json.canon (Notebook.dump
        { nbformat := 4, nbformat_minor := 5, metadata := [], cells := [] }) ≠
      Json.canon (normalizeNotebookJson extraKeyNotebookJson) :=
  ⟨rfl, fun h => absurd (congrArg numKeys h) (by decide)⟩

/-- **C9** (amended): restricted to the strict wire fragment — notebook
JSON objects whose keys are the modeled ones without duplicates, with a
JSON-array `cells` of strict cell objects — deserializing into the
`Notebook` model and re-serializing via the builder's dump yields JSON
canonically (up to object key order) equal to the original after
normalizing array-of-strings `source` values into newline-joined strings. -/
theorem notebook_roundtrip {j : Json} {nb : Notebook}
    (hstrict : strictNotebookJson j = true)
    (hp : parseNotebook j = some nb) :
    Json.canon (Notebook.dump nb) = Json.canon (normalizeNotebookJson j) := by
  cases j with
  | obj kvs =>
    simp only [strictNotebookJson, Bool.and_eq_true] at hstrict
    obtain ⟨⟨hnd, hsub⟩, hcellsS⟩ := hstrict
    simp only [parseNotebook, asObj] at hp
    split at hp
    case _ nf nfm hnf hnfm =>
      split at hp
      case _ md cellsJson hmd hcells =>
        cases hmc : cellsJson.mapM parseCell with
        | none => rw [hmc] at hp; simp at hp
        | some cells =>
          rw [hmc] at hp
          simp only [Option.some.injEq] at hp
          subst hp
          rw [hcells] at hcellsS
          simp only [] at hcellsS
          refine canon_obj_eq ?_ ?_ ?_
          · simp [nodupKeysB, lookupKV]
          · rw [nodupKeysB_iff, keys_mapVal]
            exact nodupKeysB_iff.mp hnd
          · intro k
            rw [lookupKV_mapVal]
            by_cases hk1 : k = "nbformat"
            · subst hk1
              simp [lookupKV, normNBVal, hnf]
            · by_cases hk2 : k = "nbformat_minor"
              · subst hk2
                simp [lookupKV, normNBVal, hnfm]
              · by_cases hk3 : k = "metadata"
                · subst hk3
                  simp [lookupKV, normNBVal, hmd]
                · by_cases hk4 : k = "cells"
                  · subst hk4
                    have hlist : Json.canon (.arr (cells.map Cell.dump)) =
                        Json.canon (.arr (cellsJson.map normalizeCellJson)) := by
                      show Json.arr (canonList (cells.map Cell.dump)) =
                        Json.arr (canonList (cellsJson.map normalizeCellJson))
                      rw [canonList_eq_map, canonList_eq_map,
                        cells_roundtrip_list hcellsS hmc]
                    simp [lookupKV, normNBVal, hcells, hlist]
                  · have hkvs : lookupKV kvs k = none :=
                      lookupKV_none_of_subset hsub
                        (by simp [hk1, hk2, hk3, hk4])
                    simp [lookupKV, hkvs, Ne.symm hk1, Ne.symm hk2,
                      Ne.symm hk3, Ne.symm hk4]
      case _ => simp at hp
    case _ => simp at hp
  | null => simp [strictNotebookJson] at hstrict
  | bool b => simp [strictNotebookJson] at hstrict
  | num n => simp [strictNotebookJson] at hstrict
  | str s => simp [strictNotebookJson] at hstrict
  | arr xs => simp [strictNotebookJson] at hstrict

/-- Witness for the amended C9 round-trip on a concrete strict notebook
(code cell with list source, execution count and a stream output, plus a
markdown cell, keys out of dump order). -/
theorem notebook_roundtrip_witness :
    strictNotebookJson roundTripNotebookJson = true ∧
    parseNotebook roundTripNotebookJson = some roundTripNotebook ∧
    Json.canon (Notebook.dump roundTripNotebook) =
      Json.canon (normalizeNotebookJson roundTripNotebookJson) :=
  ⟨rfl, rfl, notebook_roundtrip rfl rfl⟩

/-! ## C4 — disjointness of document ids and `deleted_cell_ids` (corrected)

`add_cell` never consults `deleted_cell_ids`, so an `nb_cells/add` that
reuses a previously deleted id re-introduces it while the id stays in
`deleted_cell_ids`. -/

/-- C4 counterexample: delete cell `c1`, then add a cell with id `c1` again
(both applies succeed); afterwards `"c1"` is simultaneously in the document
and in `deleted_cell_ids`. -/
theorem deleted_cell_ids_disjointness_counterexample :
    ((sampleBuilder [sampleCell "c1"]).apply_delta noDmp
        { id := 1, delta_type := "nb_cells", delta_action := "delete",
          resource_id := "c1", properties := { id := some "c1" } } =
      .ok { nb := sampleNotebook [], last_applied_delta_id := some 1,
            deleted_cell_ids := ["c1"] }) ∧
    (({ nb := sampleNotebook [], last_applied_delta_id := some 1,
        deleted_cell_ids := ["c1"] } : NotebookBuilder).apply_delta noDmp
        { id := 2, delta_type := "nb_cells", delta_action := "add",
          properties :=
            { id := some "c1",
              cell := some [("id", .str "c1"), ("cell_type", .str "code"),
                            ("source", .str ""), ("metadata", .obj [])] } } =
      .ok { nb := sampleNotebook [sampleCell "c1"], last_applied_delta_id := some 2,
            deleted_cell_ids := ["c1"] }) ∧
    "c1" ∈ (sampleNotebook [sampleCell "c1"]).cells.map Cell.id ∧
    "c1" ∈ (["c1"] : List String) :=
  ⟨rfl, rfl, by decide, by decide⟩

/-- C4 (amended): disjointness of the document's cell ids from
`deleted_cell_ids` is an invariant of successful `apply_delta` steps,
provided cell ids are unique and no applied `nb_cells/add` delta reuses an
id that is currently present or was previously deleted.  (Without that
proviso the code violates disjointness, see the counterexample.) -/
theorem apply_delta_preserves_disjointness (dmp : String → String → String)
    (b b' : NotebookBuilder) (d : FileDelta)
    (hnodup : (b.nb.cells.map Cell.id).Nodup)
    (hdisj : ∀ cid ∈ b.nb.cells.map Cell.id, cid ∉ b.deleted_cell_ids)
    (hadd : deltaKind d.delta_type d.delta_action = DeltaKind.nbAdd →
      ∀ pid, d.properties.id = some pid →
        pid ∉ b.nb.cells.map Cell.id ∧ pid ∉ b.deleted_cell_ids)
    (h : b.apply_delta dmp d = .ok b') :
    (b'.nb.cells.map Cell.id).Nodup ∧
    ∀ cid ∈ b'.nb.cells.map Cell.id, cid ∉ b'.deleted_cell_ids := by
  unfold NotebookBuilder.apply_delta at h
  cases hres : b.dispatchDelta dmp d with
  | error b2 => rw [hres] at h; simp at h
  | ok b2 =>
    rw [hres] at h
    simp at h
    subst h
    suffices hs : (b2.nb.cells.map Cell.id).Nodup ∧
        ∀ cid ∈ b2.nb.cells.map Cell.id, cid ∉ b2.deleted_cell_ids by
      simpa using hs
    unfold NotebookBuilder.dispatchDelta at hres
    cases hk : deltaKind d.delta_type d.delta_action <;> rw [hk] at hres
    case nbAdd =>
      rcases add_cell_ok_ids hres with rfl | ⟨pid, hpid, hperm, hdel⟩
      · exact ⟨hnodup, hdisj⟩
      · obtain ⟨hp1, hp2⟩ := hadd hk pid hpid
        constructor
        · exact (hperm.nodup_iff).mpr (List.nodup_cons.mpr ⟨hp1, hnodup⟩)
        · intro cid hcid
          rw [hdel]
          rcases List.mem_cons.mp (hperm.mem_iff.mp hcid) with rfl | hmem
          · exact hp2
          · exact hdisj cid hmem
    case nbDelete =>
      rcases delete_cell_ok_ids hres with rfl | ⟨pid, idx, hpid, hidx, hids, hdel⟩
      · exact ⟨hnodup, hdisj⟩
      · have hsub : (b2.nb.cells.map Cell.id).Sublist (b.nb.cells.map Cell.id) := by
          rw [hids]; exact removeAt_sublist _ _
        refine ⟨hnodup.sublist hsub, ?_⟩
        intro cid hcid
        have hmem : cid ∈ b.nb.cells.map Cell.id := hsub.subset hcid
        have hne : cid ≠ pid := by
          intro hcontra
          subst hcontra
          rw [hids] at hcid
          exact not_mem_removeAt hnodup hidx hcid
        rcases hdel with hdel | hdel
        · rw [hdel]; exact hdisj cid hmem
        · rw [hdel]
          simp only [List.mem_append, List.mem_singleton]
          rintro (hin | hin)
          · exact hdisj cid hmem hin
          · exact hne hin
    case nbMove =>
      obtain ⟨hperm, hdel⟩ := move_cell_ok_ids hres
      refine ⟨(hperm.nodup_iff).mpr hnodup, ?_⟩
      intro cid hcid
      rw [hdel]
      exact hdisj cid (hperm.mem_iff.mp hcid)
    case contentsUpdate =>
      obtain ⟨hids, hdel⟩ := update_cell_contents_ok_ids hres
      rw [hids, hdel]
      exact ⟨hnodup, hdisj⟩
    case contentsReplace =>
      obtain ⟨hids, hdel⟩ := replace_cell_contents_ok_ids hres
      rw [hids, hdel]
      exact ⟨hnodup, hdisj⟩
    case cellMetaUpdate =>
      obtain ⟨hids, hdel⟩ := update_cell_metadata_ok_ids hres
      rw [hids, hdel]
      exact ⟨hnodup, hdisj⟩
    case cellMetaReplace =>
      obtain ⟨hids, hdel⟩ := replace_cell_metadata_ok_ids hres
      rw [hids, hdel]
      exact ⟨hnodup, hdisj⟩
    case nbMetaUpdate =>
      obtain ⟨hids, hdel⟩ := update_notebook_metadata_ok_ids hres
      rw [hids, hdel]
      exact ⟨hnodup, hdisj⟩
    case outputCollectionReplace =>
      obtain ⟨hids, hdel⟩ := replace_cell_output_collection_ok_ids hres
      rw [hids, hdel]
      exact ⟨hnodup, hdisj⟩
    case execute =>
      simp [NotebookBuilder.log_execute_delta] at hres
      subst hres
      exact ⟨hnodup, hdisj⟩
    case unhandled =>
      simp at hres
      subst hres
      exact ⟨hnodup, hdisj⟩

/-- C4 witness: deleting `c1` from a one-cell notebook keeps ids unique and
disjoint from `deleted_cell_ids`. -/
theorem apply_delta_preserves_disjointness_witness :
    (({ nb := sampleNotebook [], last_applied_delta_id := some 1,
        deleted_cell_ids := ["c1"] } : NotebookBuilder).nb.cells.map Cell.id).Nodup ∧
    ∀ cid ∈ ({ nb := sampleNotebook [], last_applied_delta_id := some 1,
               deleted_cell_ids := ["c1"] } : NotebookBuilder).nb.cells.map Cell.id,
      cid ∉ ({ nb := sampleNotebook [], last_applied_delta_id := some 1,
               deleted_cell_ids := ["c1"] } : NotebookBuilder).deleted_cell_ids :=
  apply_delta_preserves_disjointness noDmp (sampleBuilder [sampleCell "c1"])
    { nb := sampleNotebook [], last_applied_delta_id := some 1,
      deleted_cell_ids := ["c1"] }
    { id := 1, delta_type := "nb_cells", delta_action := "delete",
      resource_id := "c1", properties := { id := some "c1" } }
    (by decide) (by decide) (fun hk => absurd hk (by decide)) rfl

/-! ## C10 — bulk cell state update replaces `cell_states` wholesale
(confirmed) -/

/-- Folding the bulk-update items builds the fresh `cell_states` dict key by
key (last write per key wins), on top of whatever accumulator it starts
from. -/
theorem bulk_fold_states_lookup (b : NotebookBuilder) (cid : String) :
    ∀ (items : List CellStateItem) (cs : List (String × String))
      (pending : List (String × ExecFut)),
      lookupKV (items.foldl (bulkStep b) (cs, pending)).1 cid =
        (match items.reverse.find? (fun it => it.cell_id == cid) with
         | some it => some it.state
         | none => lookupKV cs cid) := by
  intro items
  induction items with
  | nil => intro cs pending; simp
  | cons it rest ih =>
    intro cs pending
    simp only [List.foldl_cons]
    rw [show bulkStep b (cs, pending) it
        = (insertKV cs it.cell_id it.state, (bulkStep b (cs, pending) it).2) from rfl]
    rw [ih]
    simp only [List.reverse_cons, List.find?_append]
    cases hrest : rest.reverse.find? (fun it => it.cell_id == cid) with
    | some it' => simp
    | none =>
      by_cases hc : it.cell_id = cid
      · subst hc
        simp [List.find?, lookupKV_insert_self]
      · have hb : (it.cell_id == cid) = false := by
          simp [hc]
        simp [List.find?, hb, lookupKV_insert_ne _ _ (Ne.symm hc)]

/-- C10: after `on_bulk_cell_state_update`, `cell_states` holds exactly the
mapping listed in that message — each mentioned cell id maps to its (last)
listed state, every unmentioned cell id is absent, and the previous
`cell_states` content is irrelevant. -/
theorem on_bulk_cell_state_update_replaces (b : NotebookBuilder)
    (pending : List (String × ExecFut)) (old_states : List (String × String))
    (items : List CellStateItem) (cid : String) :
    lookupKV (on_bulk_cell_state_update b pending old_states items).1 cid =
      (items.reverse.find? (fun it => it.cell_id == cid)).map CellStateItem.state := by
  unfold on_bulk_cell_state_update
  rw [bulk_fold_states_lookup]
  cases items.reverse.find? (fun it => it.cell_id == cid) <;> simp [lookupKV]

/-! ## C2 — execution futures resolve on terminal states (corrected)

`on_bulk_cell_state_update` checks `item.state in ["finished_with_error",
"finished_with_no_error"]` — two of the six states that
`CellState.is_terminal_state` calls terminal.  A pending future stays
unresolved when the update reports `catastrophic_failure`, `dequeued`,
`interrupted`, or `not_run`. -/

/-- C2 counterexample: `"interrupted"` is a terminal state
(`CellState.is_terminal_state`), yet a bulk update reporting a monitored cell
as `interrupted` leaves its pending future unresolved (while still recording
the cell state). -/
theorem bulk_terminal_states_counterexample :
    isTerminalState "interrupted" = true ∧
    (on_bulk_cell_state_update (sampleBuilder [sampleCell "c1"])
        [("c1", { done := false, result := none })] []
        [{ cell_id := "c1", state := "interrupted" }]).2
      = [("c1", { done := false, result := none })] ∧
    (on_bulk_cell_state_update (sampleBuilder [sampleCell "c1"])
        [("c1", { done := false, result := none })] []
        [{ cell_id := "c1", state := "interrupted" }]).1
      = [("c1", "interrupted")] :=
  ⟨rfl, rfl, rfl⟩

/-- Surjective pairing of one bulk-update step: the states side is always
`insertKV cs item.cell_id item.state`. -/
theorem bulkStep_eta (b : NotebookBuilder) (cs : List (String × String))
    (pending : List (String × ExecFut)) (it : CellStateItem) :
    bulkStep b (cs, pending) it
      = (insertKV cs it.cell_id it.state, (bulkStep b (cs, pending) it).2) := rfl

/-- The pending-futures part of the bulk-update fold: a monitored future
becomes done exactly when it already was or some item reports its cell with
one of the two checked "finished" states; first such resolution stores the
builder's current cell (or cell-not-found); done futures and futures with no
matching item are untouched. -/
theorem bulk_fold_pending_lookup (b : NotebookBuilder) (cid : String) :
    ∀ (items : List CellStateItem) (cs : List (String × String))
      (pending : List (String × ExecFut)) (fut : ExecFut),
      lookupKV pending cid = some fut →
      ∃ fut', lookupKV (items.foldl (bulkStep b) (cs, pending)).2 cid = some fut' ∧
        fut'.done = (fut.done || items.any (matchFinished cid)) ∧
        (fut.done = true → fut' = fut) ∧
        (fut.done = false → items.any (matchFinished cid) = true →
          fut'.result = some (futResolution b cid)) ∧
        (items.any (matchFinished cid) = false → fut' = fut) := by
  intro items
  induction items with
  | nil =>
    intro cs pending fut h
    exact ⟨fut, h, by simp, fun _ => rfl, by simp, fun _ => rfl⟩
  | cons it rest ih =>
    intro cs pending fut h
    simp only [List.foldl_cons]
    by_cases hc : it.cell_id = cid
    · subst hc
      by_cases hs : (it.state = "finished_with_error" ∨ it.state = "finished_with_no_error")
      · have hm : matchFinished it.cell_id it = true := by
          simp [matchFinished]
          exact hs
        by_cases hd : fut.done = true
        · have hstep : (bulkStep b (cs, pending) it).2 = pending := by
            simp only [bulkStep, h]
            rw [if_pos (by simpa using hs), if_pos hd]
          rw [bulkStep_eta, hstep]
          obtain ⟨fut', h1, h2, h3, h4, h5⟩ :=
            ih (insertKV cs it.cell_id it.state) pending fut h
          have hff : fut' = fut := h3 hd
          subst hff
          refine ⟨fut', h1, ?_, fun _ => rfl, ?_, ?_⟩
          · simp [List.any_cons, hm, hd]
          · intro hdf; rw [hdf] at hd; simp at hd
          · intro hany
            simp [List.any_cons, hm] at hany
        · have hdf : fut.done = false := by simpa using hd
          have hstep : (bulkStep b (cs, pending) it).2 =
              insertKV pending it.cell_id
                { done := true, result := some (futResolution b it.cell_id) } := by
            simp only [bulkStep, h]
            rw [if_pos (by simpa using hs), if_neg (by simp [hdf])]
          rw [bulkStep_eta, hstep]
          obtain ⟨fut', h1, h2, h3, h4, h5⟩ :=
            ih (insertKV cs it.cell_id it.state)
              (insertKV pending it.cell_id
                { done := true, result := some (futResolution b it.cell_id) })
              { done := true, result := some (futResolution b it.cell_id) }
              (lookupKV_insert_self _ _ _)
          have hff : fut' = { done := true, result := some (futResolution b it.cell_id) } :=
            h3 rfl
          subst hff
          refine ⟨_, h1, ?_, ?_, ?_, ?_⟩
          · simp [List.any_cons, hm, hdf]
          · intro hdt; rw [hdt] at hdf; simp at hdf
          · intro _ _; rfl
          · intro hany
            simp [List.any_cons, hm] at hany
      · obtain ⟨hs1, hs2⟩ := not_or.mp hs
        have hm : matchFinished it.cell_id it = false := by
          simp [matchFinished, hs1, hs2]
        have hstep : (bulkStep b (cs, pending) it).2 = pending := by
          simp only [bulkStep, h]
          rw [if_neg (by simpa using hs)]
        rw [bulkStep_eta, hstep]
        obtain ⟨fut', h1, h2, h3, h4, h5⟩ :=
          ih (insertKV cs it.cell_id it.state) pending fut h
        refine ⟨fut', h1, ?_, h3, ?_, ?_⟩
        · simpa [List.any_cons, hm] using h2
        · intro hdf hany
          exact h4 hdf (by simpa [List.any_cons, hm] using hany)
        · intro hany
          exact h5 (by simpa [List.any_cons, hm] using hany)
    · have hm : matchFinished cid it = false := by
        simp [matchFinished, hc]
      have hstep : lookupKV (bulkStep b (cs, pending) it).2 cid = some fut := by
        simp only [bulkStep]
        split
        · exact h
        · split
          · split
            · exact h
            · rw [lookupKV_insert_ne _ _ (Ne.symm hc)]; exact h
          · exact h
      rw [bulkStep_eta]
      obtain ⟨fut', h1, h2, h3, h4, h5⟩ :=
        ih (insertKV cs it.cell_id it.state) (bulkStep b (cs, pending) it).2 fut hstep
      refine ⟨fut', h1, ?_, h3, ?_, ?_⟩
      · simpa [List.any_cons, hm] using h2
      · intro hdf hany
        exact h4 hdf (by simpa [List.any_cons, hm] using hany)
      · intro hany
        exact h5 (by simpa [List.any_cons, hm] using hany)

/-- C2 (amended): a pending execution future resolves (with the builder's
current cell, or cell-not-found if the cell was deleted) exactly when a bulk
cell state update reports that cell in `finished_with_no_error` or
`finished_with_error` — not on the other four terminal states
(`catastrophic_failure`, `dequeued`, `interrupted`, `not_run`), which leave
the future pending. -/
theorem bulk_resolves_exactly_on_finished (b : NotebookBuilder)
    (pending : List (String × ExecFut)) (old_states : List (String × String))
    (items : List CellStateItem) (cid : String) (fut : ExecFut)
    (h : lookupKV pending cid = some fut) :
    ∃ fut', lookupKV (on_bulk_cell_state_update b pending old_states items).2 cid
        = some fut' ∧
      fut'.done = (fut.done || items.any (matchFinished cid)) ∧
      (fut.done = true → fut' = fut) ∧
      (fut.done = false → items.any (matchFinished cid) = true →
        fut'.result = some (futResolution b cid)) ∧
      (items.any (matchFinished cid) = false → fut' = fut) := by
  unfold on_bulk_cell_state_update
  exact bulk_fold_pending_lookup b cid items [] pending fut h

/-- C2 witness: a fresh future for cell `c1` is resolved with the builder's
cell by a `finished_with_no_error` update. -/
theorem bulk_resolves_exactly_on_finished_witness :
    ∃ fut', lookupKV (on_bulk_cell_state_update (sampleBuilder [sampleCell "c1"])
        [("c1", { done := false, result := none })] []
        [{ cell_id := "c1", state := "finished_with_no_error" }]).2 "c1"
        = some fut' ∧
      fut'.done = (false ||
        [({ cell_id := "c1", state := "finished_with_no_error" } : CellStateItem)].any
          (matchFinished "c1")) ∧
      (false = true → fut' = { done := false, result := none }) ∧
      (false = false →
        [({ cell_id := "c1", state := "finished_with_no_error" } : CellStateItem)].any
          (matchFinished "c1") = true →
        fut'.result = some (futResolution (sampleBuilder [sampleCell "c1"]) "c1")) ∧
      ([({ cell_id := "c1", state := "finished_with_no_error" } : CellStateItem)].any
          (matchFinished "c1") = false →
        fut' = { done := false, result := none }) :=
  bulk_resolves_exactly_on_finished (sampleBuilder [sampleCell "c1"])
    [("c1", { done := false, result := none })] []
    [{ cell_id := "c1", state := "finished_with_no_error" }] "c1"
    { done := false, result := none } rfl

/-- C3 witness for the amended theorem: the counterexample input's raise
leaves `last_applied_delta_id`, metadata and `deleted_cell_ids` intact. -/
theorem apply_delta_error_preserves_witness :
    ({ nb := sampleNotebook [sampleCell "c2"], last_applied_delta_id := none,
       deleted_cell_ids := [] } : NotebookBuilder).last_applied_delta_id =
      (sampleBuilder [sampleCell "c1", sampleCell "c2"]).last_applied_delta_id ∧
    ({ nb := sampleNotebook [sampleCell "c2"], last_applied_delta_id := none,
       deleted_cell_ids := [] } : NotebookBuilder).nb.metadata =
      (sampleBuilder [sampleCell "c1", sampleCell "c2"]).nb.metadata ∧
    ({ nb := sampleNotebook [sampleCell "c2"], last_applied_delta_id := none,
       deleted_cell_ids := [] } : NotebookBuilder).deleted_cell_ids =
      (sampleBuilder [sampleCell "c1", sampleCell "c2"]).deleted_cell_ids :=
  apply_delta_error_preserves noDmp (sampleBuilder [sampleCell "c1", sampleCell "c2"])
    { nb := sampleNotebook [sampleCell "c2"], last_applied_delta_id := none,
      deleted_cell_ids := [] }
    { id := 1, delta_type := "nb_cells", delta_action := "move",
      resource_id := "c1", properties := { id := some "c1", after_id := some "c3" } }
    rfl

end Origami
